import Mathlib

/-!
Verification of the UALBP-1 SAT reduction (files `ualbp.py`, `ualbp_naive.py`,
`ualbp_pb.py`).

Shallow embedding conventions:
* A boolean variable id is a `Nat` (ids are ≥ 1 in the encoding).
* A literal is an `Int`: positive asserts the variable true, negative false,
  exactly as in the DIMACS-style clauses the Python code builds.
* A SAT model is abstracted as `ν : Nat → Bool`; the Python code reads
  `model[v - 1] > 0` for variable `v`, which is `ν v` here.
* The SAT solver (`Glucose3`) is an external oracle and is abstracted as a
  function `List (List Int) → Option (Nat → Bool)`; soundness/completeness of
  the oracle are explicit hypotheses where a theorem needs them.
* Python's unbounded `while True` loops are rendered with an explicit fuel
  argument; `none` means the fuel ran out (never observed with enough fuel).
* The forward mode (`"F"` strings in the code) is `true`, backward is `false`.
-/

/-- `variables[i][k][0]` of `generate_ualbp_variables`: the forward literal id
`i * num_stations * 2 + k + 1`. -/
def xVar (numStations i k : Nat) : Nat :=
  i * numStations * 2 + k + 1

/-- `variables[i][k][1]` of `generate_ualbp_variables`: the backward literal id
`i * num_stations * 2 + num_stations + k + 1`. -/
def wVar (numStations i k : Nat) : Nat :=
  i * numStations * 2 + numStations + k + 1

/-- `generate_ualbp_variables(num_tasks, num_stations)` from `ualbp.py`
(lines 21-24): the nested list of (forward id, backward id) pairs. -/
def generate_ualbp_variables (num_tasks num_stations : Nat) :
    List (List (Nat × Nat)) :=
  (List.range num_tasks).map (fun i =>
    (List.range num_stations).map (fun k =>
      (xVar num_stations i k, wVar num_stations i k)))

/-- `y_vars[i][k]` of `generate_base_clauses` (ualbp.py line 64):
`offset + i * num_stations + k + 1` with `offset = num_tasks*num_stations*2`. -/
def yVar (num_tasks num_stations i k : Nat) : Nat :=
  num_tasks * num_stations * 2 + i * num_stations + k + 1

/-- The `y_vars` nested list built in `generate_base_clauses` (ualbp.py 63-65). -/
def yVarsList (num_tasks num_stations : Nat) : List (List Nat) :=
  (List.range num_tasks).map (fun i =>
    (List.range num_stations).map (fun k => yVar num_tasks num_stations i k))

/-- Truth of one signed literal under a model. In the Python code a literal
`l` is true in `model` iff (`l > 0` and `model[l-1] > 0`) or (`l < 0` and
`model[-l-1] < 0`). -/
def litSat (ν : Nat → Bool) (l : Int) : Bool :=
  if 0 < l then ν l.natAbs else !(ν l.natAbs)

/-- A clause (disjunction) is satisfied iff some literal of it is. -/
def clauseSat (ν : Nat → Bool) (c : List Int) : Bool :=
  c.any (litSat ν)

/-- A clause set is satisfied iff every clause is. -/
def satClauses (ν : Nat → Bool) (cs : List (List Int)) : Bool :=
  cs.all (clauseSat ν)

/-- `variables[i][k][0]` as a literal, for a generic `variables` list. -/
def var0 (vars : List (List (Nat × Nat))) (i k : Nat) : Int :=
  (((vars.getD i []).getD k (0, 0)).1 : Int)

/-- `variables[i][k][1]` as a literal, for a generic `variables` list. -/
def var1 (vars : List (List (Nat × Nat))) (i k : Nat) : Int :=
  (((vars.getD i []).getD k (0, 0)).2 : Int)

/-- Assignment block of `generate_base_clauses` (ualbp.py lines 31-44):
per task, the at-least-one clause, the per-station not-both-modes clauses and
the pairwise per-mode at-most-one-station clauses (inner loop
`range(k1+1, num_stations)`). -/
def assignClauses (num_tasks num_stations : Nat)
    (vars : List (List (Nat × Nat))) : List (List Int) :=
  (List.range num_tasks).flatMap (fun i =>
    [(List.range num_stations).map (fun k => var0 vars i k) ++
     (List.range num_stations).map (fun k => var1 vars i k)]
    ++ (List.range num_stations).map (fun k =>
         [-(var0 vars i k), -(var1 vars i k)])
    ++ (List.range num_stations).flatMap (fun k1 =>
         (List.range' (k1 + 1) (num_stations - (k1 + 1))).flatMap (fun k2 =>
           [[-(var0 vars i k1), -(var0 vars i k2)],
            [-(var1 vars i k1), -(var1 vars i k2)]])))

/-- Precedence block of `generate_base_clauses` (ualbp.py lines 47-61):
forward pass (`k >= h`), backward pass (`k <= h`), and the unconditional
mixed (backward `i` with forward `j`) clauses. -/
def precClauses (num_stations : Nat) (vars : List (List (Nat × Nat)))
    (precedences : List (Nat × Nat)) : List (List Int) :=
  precedences.flatMap (fun p =>
    ((List.range num_stations).flatMap (fun k =>
       ((List.range num_stations).filter (fun h => h ≤ k)).map (fun h =>
         [-(var0 vars p.1 k), -(var0 vars p.2 h)])))
    ++ ((List.range num_stations).flatMap (fun k =>
       ((List.range num_stations).filter (fun h => k ≤ h)).map (fun h =>
         [-(var1 vars p.1 k), -(var1 vars p.2 h)])))
    ++ ((List.range num_stations).flatMap (fun k =>
       (List.range num_stations).map (fun h =>
         [-(var1 vars p.1 k), -(var0 vars p.2 h)]))))

/-- Indicator block of `generate_base_clauses` (ualbp.py lines 67-76): the
three clauses tying `y[i][k]` to `X[i][k] ∨ W[i][k]`. -/
def linkClauses (num_tasks num_stations : Nat)
    (vars : List (List (Nat × Nat))) : List (List Int) :=
  (List.range num_tasks).flatMap (fun i =>
    (List.range num_stations).flatMap (fun k =>
      [[-(yVar num_tasks num_stations i k : Int), var0 vars i k, var1 vars i k],
       [-(var0 vars i k), (yVar num_tasks num_stations i k : Int)],
       [-(var1 vars i k), (yVar num_tasks num_stations i k : Int)]]))

/-- `generate_base_clauses` from `ualbp.py` (lines 26-78), lazy variant:
returns the clause list and the `y_vars` table. The `tasks` argument is
unused there, exactly as in the source. -/
def generate_base_clauses (num_tasks num_stations : Nat) (tasks : List Nat)
    (precedences : List (Nat × Nat)) (vars : List (List (Nat × Nat))) :
    List (List Int) × List (List Nat) :=
  (assignClauses num_tasks num_stations vars
     ++ precClauses num_stations vars precedences
     ++ linkClauses num_tasks num_stations vars,
   yVarsList num_tasks num_stations)

/-- `generate_base_clauses` from `ualbp_pb.py` (lines 35-68): identical
assignment and precedence blocks, but no indicator block and no `y_vars`. -/
def generate_base_clauses_pb (num_tasks num_stations : Nat) (tasks : List Nat)
    (precedences : List (Nat × Nat)) (vars : List (List (Nat × Nat))) :
    List (List Int) :=
  assignClauses num_tasks num_stations vars
    ++ precClauses num_stations vars precedences

/-- `check_cycle_time` from `ualbp.py` (lines 80-91): per station, the list of
tasks whose indicator is positive in the model and their summed duration;
stations whose sum exceeds the cycle time are reported. -/
def check_cycle_time (model : Nat → Bool) (num_tasks num_stations : Nat)
    (tasks : List Nat) (y_vars : List (List Nat)) (cycle_time : Nat) :
    List (Nat × List Nat × Nat) :=
  (List.range num_stations).filterMap (fun k =>
    let assigned := (List.range num_tasks).filter
      (fun i => model ((y_vars.getD i []).getD k 0))
    let total := (assigned.map (fun i => tasks.getD i 0)).sum
    if cycle_time < total then some (k, assigned, total) else none)

/-- The solution decoding of `solve_ualbp_iterative` (ualbp.py lines 111-117):
station `k` receives `(i, true)` when the forward literal is positive, else
`(i, false)` when the backward literal is (the code's `"iF"`/`"iB"` strings). -/
def decodeSolution (model : Nat → Bool) (num_tasks num_stations : Nat)
    (vars : List (List (Nat × Nat))) : List (List (Nat × Bool)) :=
  (List.range num_stations).map (fun k =>
    (List.range num_tasks).filterMap (fun i =>
      if model ((var0 vars i k).natAbs) then some (i, true)
      else if model ((var1 vars i k).natAbs) then some (i, false)
      else none))

/-- The cut clause built for one violation (ualbp.py line 122):
`[-y_vars[i][k] for i in assigned]`. -/
def cutClause (y_vars : List (List Nat)) (v : Nat × List Nat × Nat) :
    List Int :=
  v.2.1.map (fun i => -(((y_vars.getD i []).getD v.1 0 : Nat) : Int))

/-- The `while True` refinement loop of `solve_ualbp_iterative`
(ualbp.py lines 99-125), with explicit fuel and the accumulated
`extra_clauses` as state. `some none` is the function's `None` (unsat),
`some (some s)` a returned solution, `none` exhausted fuel. -/
def iterLoop (oracle : List (List Int) → Option (Nat → Bool))
    (base : List (List Int)) (y_vars : List (List Nat))
    (num_tasks num_stations : Nat) (tasks : List Nat)
    (vars : List (List (Nat × Nat))) (cycle_time : Nat) :
    Nat → List (List Int) → Option (Option (List (List (Nat × Bool))))
  | 0, _ => none
  | fuel + 1, extra =>
    match oracle (base ++ extra) with
    | none => some none
    | some model =>
      let violations :=
        check_cycle_time model num_tasks num_stations tasks y_vars cycle_time
      if violations.isEmpty then
        some (some (decodeSolution model num_tasks num_stations vars))
      else
        iterLoop oracle base y_vars num_tasks num_stations tasks vars
          cycle_time fuel (extra ++ violations.map (cutClause y_vars))

/-- `solve_ualbp_iterative` from `ualbp.py` (lines 93-125): build variables and
base clauses, then run the refinement loop starting from empty extra clauses. -/
def solve_ualbp_iterative (oracle : List (List Int) → Option (Nat → Bool))
    (fuel num_tasks num_stations : Nat) (tasks : List Nat)
    (precedences : List (Nat × Nat)) (cycle_time : Nat) :
    Option (Option (List (List (Nat × Bool)))) :=
  let vars := generate_ualbp_variables num_tasks num_stations
  let bc := generate_base_clauses num_tasks num_stations tasks precedences vars
  iterLoop oracle bc.1 bc.2 num_tasks num_stations tasks vars cycle_time
    fuel []

/-- `solve_ualbp` from `ualbp.py` (lines 127-134): retry the refinement loop
with `num_stations + 1` while it returns `None`. The inner loop is run with
fuel `num_stations * 2^num_tasks + 1`, which is proved sufficient below. -/
def solve_ualbp (oracle : List (List Int) → Option (Nat → Bool)) :
    Nat → Nat → Nat → List Nat → List (Nat × Nat) → Nat →
    Option (List (List (Nat × Bool)) × Nat)
  | 0, _, _, _, _, _ => none
  | fuel + 1, num_tasks, num_stations, tasks, precedences, cycle_time =>
    match solve_ualbp_iterative oracle
        (num_stations * 2 ^ num_tasks + 1) num_tasks num_stations tasks
        precedences cycle_time with
    | none => none
    | some none =>
      solve_ualbp oracle fuel num_tasks (num_stations + 1) tasks precedences
        cycle_time
    | some (some sol) => some (sol, num_stations)

/-- `solve_ualbp` terminates (for a given oracle and instance) iff some fuel
suffices. -/
def solveTerminates (oracle : List (List Int) → Option (Nat → Bool))
    (num_tasks num_stations : Nat) (tasks : List Nat)
    (precedences : List (Nat × Nat)) (cycle_time : Nat) : Prop :=
  ∃ fuel, solve_ualbp oracle fuel num_tasks num_stations tasks precedences
    cycle_time ≠ none

example : xVar 2 0 0 = 1 := by decide
example : wVar 2 0 1 = 4 := by decide
example : yVar 1 2 0 1 = 6 := by decide

/-- Largest variable id (absolute value of a literal) occurring in a clause. -/
def clauseMaxVar (c : List Int) : Nat :=
  c.foldr (fun l m => max l.natAbs m) 0

/-- Largest variable id occurring in a clause set. -/
def clausesMaxVar (cs : List (List Int)) : Nat :=
  cs.foldr (fun c m => max (clauseMaxVar c) m) 0

/-- The model determined by a list of true variable ids. -/
def listModel (L : List Nat) : Nat → Bool :=
  fun v => L.contains v

/-- A concrete, executable SAT oracle used to instantiate oracle-parametric
theorems: it searches all assignments to the variables `0..n` occurring in the
clause set. Proved sound and complete below. -/
def bruteOracle (cs : List (List Int)) : Option (Nat → Bool) :=
  (((List.range (clausesMaxVar cs + 1)).sublists).find?
    (fun L => satClauses (listModel L) cs)).map listModel

/-- The literal list built for one station by `solve_ualbp_iterative` of
`ualbp_pb.py` (lines 110-116): forward then backward literal of each task. -/
def stationLits (num_tasks num_stations s : Nat)
    (vars : List (List (Nat × Nat))) : List Int :=
  (List.range num_tasks).flatMap (fun i => [var0 vars i s, var1 vars i s])

/-- The weight list built alongside `stationLits` (each task's duration,
twice). -/
def stationWeights (num_tasks : Nat) (tasks : List Nat) : List Nat :=
  (List.range num_tasks).flatMap (fun i => [tasks.getD i 0, tasks.getD i 0])

/-- The per-station pseudo-boolean encoding loop of `ualbp_pb.py`
(lines 109-129), abstracting `PBEnc.leq` as `pbenc lits weights bound top_id`.
Processes the given station indices starting from watermark `next_var`;
returns the list of `(top_id handed to the encoder, clauses it returned)`
pairs in order, and the final watermark.  `local_max` starts from `next_var`
and is raised to the largest absolute literal of the returned clauses, and
`next_var` becomes `local_max + 1`, exactly as in the source. -/
def pbStationRun
    (pbenc : List Int → List Nat → Nat → Nat → List (List Int))
    (num_tasks num_stations : Nat) (tasks : List Nat)
    (vars : List (List (Nat × Nat))) (cycle_time : Nat) :
    List Nat → Nat → List (Nat × List (List Int)) × Nat
  | [], next_var => ([], next_var)
  | s :: rest, next_var =>
    let cls := pbenc (stationLits num_tasks num_stations s vars)
      (stationWeights num_tasks tasks) cycle_time next_var
    let local_max := cls.foldl (fun m c => max m (clauseMaxVar c)) next_var
    let r := pbStationRun pbenc num_tasks num_stations tasks vars cycle_time
      rest (local_max + 1)
    ((next_var, cls) :: r.1, r.2)

/-- The whole pseudo-boolean clause submission of one
`solve_ualbp_iterative` call in `ualbp_pb.py`: stations `0..num_stations-1`
starting from the initial watermark `num_tasks * num_stations * 2`
(line 104). -/
def pbRun (pbenc : List Int → List Nat → Nat → Nat → List (List Int))
    (num_tasks num_stations : Nat) (tasks : List Nat)
    (vars : List (List (Nat × Nat))) (cycle_time : Nat) :
    List (Nat × List (List Int)) × Nat :=
  pbStationRun pbenc num_tasks num_stations tasks vars cycle_time
    (List.range num_stations) (num_tasks * num_stations * 2)

/-- Python whitespace for `str.strip()`. -/
def isPySpace (c : Char) : Bool :=
  c = ' ' ∨ c = '\t' ∨ c = '\n' ∨ c = '\r'

/-- `str.strip()` on the character list. -/
def stripChars (cs : List Char) : List Char :=
  ((cs.dropWhile isPySpace).reverse.dropWhile isPySpace).reverse

/-- `str.strip()` returning a string. -/
def pyStrip (s : String) : String :=
  String.mk (stripChars s.toList)

/-- Decimal value of a digit string. -/
def digitsVal (cs : List Char) : Nat :=
  cs.foldl (fun n c => n * 10 + (c.toNat - '0'.toNat)) 0

/-- Python's `int(s)` on a character list: optional surrounding whitespace
and sign, then a nonempty digit string; anything else raises (`none`). -/
def pyIntChars (cs : List Char) : Option Int :=
  match stripChars cs with
  | [] => none
  | c :: rest =>
    if c = '-' then
      if rest ≠ [] ∧ rest.all Char.isDigit then
        some (-(digitsVal rest : Int))
      else none
    else if c = '+' then
      if rest ≠ [] ∧ rest.all Char.isDigit then
        some ((digitsVal rest : Int))
      else none
    else if (c :: rest).all Char.isDigit then
      some ((digitsVal (c :: rest) : Int))
    else none

/-- Python's `int(s)`. -/
def pyInt (s : String) : Option Int :=
  pyIntChars s.toList

/-- `str.split(sep)` on character lists, for a single-character separator. -/
def splitOnChar (sep : Char) : List Char → List (List Char)
  | [] => [[]]
  | c :: rest =>
    if c = sep then [] :: splitOnChar sep rest
    else
      match splitOnChar sep rest with
      | [] => [[c]]
      | g :: gs => (c :: g) :: gs

/-- `sep.join(parts)` on character lists. -/
def joinWithChar (sep : Char) : List (List Char) → List Char
  | [] => []
  | [g] => g
  | g :: gs => g ++ sep :: joinWithChar sep gs

/-- The duration list comprehension of `read_ualbp_file` (ualbp.py line 10),
evaluated left to right over the indices: an out-of-range index or a
non-numeric line raises (the first failure wins, as in Python). -/
def readDurationsAux (lines : List String) : List Nat → Except String (List Int)
  | [] => Except.ok []
  | i :: is =>
    match lines.get? (i + 1) with
    | none => Except.error "IndexError"
    | some s =>
      match pyInt s with
      | none => Except.error "ValueError"
      | some d => (readDurationsAux lines is).map (fun ds => d :: ds)

/-- `[int(lines[i + 1].strip()) for i in range(n)]` of `read_ualbp_file`. -/
def readDurations (lines : List String) (n : Nat) :
    Except String (List Int) :=
  readDurationsAux lines (List.range n)

/-- One edge line `"i,j"`: `i, j = map(int, line.strip().split(','))` raises
unless the stripped line splits into exactly two integer fields. -/
def parseEdge (line : String) : Option (Int × Int) :=
  match splitOnChar ',' (stripChars line.toList) with
  | [a, b] =>
    match pyIntChars a, pyIntChars b with
    | some i, some j => some (i, j)
    | _, _ => none
  | _ => none

/-- The edge loop of `read_ualbp_file` (ualbp.py lines 13-17): stop at the
`-1,-1` sentinel, collect `(i-1, j-1)` otherwise; note that exhausting the
lines WITHOUT meeting the sentinel simply ends the loop normally. -/
def readEdges : List String → Except String (List (Int × Int))
  | [] => Except.ok []
  | line :: rest =>
    match parseEdge line with
    | none => Except.error "ValueError"
    | some (i, j) =>
      if i = -1 ∧ j = -1 then Except.ok []
      else (readEdges rest).map (fun ps => (i - 1, j - 1) :: ps)

/-- `read_ualbp_file` from `ualbp.py` (lines 5-19) on the file's lines
(faithful for a nonnegative task count `n`, the only case the theorems
below quantify over; Python's negative-slice semantics for a negative
first line is not modelled). -/
def read_ualbp_file (lines : List String) :
    Except String (Nat × List Int × List (Int × Int)) :=
  match lines.head? with
  | none => Except.error "IndexError"
  | some l0 =>
    match pyInt l0 with
    | none => Except.error "ValueError"
    | some nI =>
      let n := nI.toNat
      match readDurations lines n with
      | Except.error e => Except.error e
      | Except.ok tasks =>
        match readEdges (lines.drop (n + 1)) with
        | Except.error e => Except.error e
        | Except.ok precs => Except.ok (n, tasks, precs)

/-- A batch CSV row of `process_instances` (`ualbp_naive.py` lines 175-233):
the `name` and `lb` fields. -/
structure BatchRow where
  name : String
  lb : String
deriving DecidableEq, Repr

/-- Python `full_name.rsplit('-', 1)`: split at the last `'-'`; a list of
two parts when the separator occurs, else the singleton. -/
def pyRsplit1 (s : String) : List String :=
  let parts := splitOnChar '-' s.toList
  if parts.length ≤ 1 then [s]
  else [String.mk (joinWithChar '-' parts.dropLast),
    String.mk (parts.getLastD [])]

/-- The per-row processing of `process_instances` (`ualbp_naive.py`
lines 179-233), with the filesystem as a map from path to file lines and the
whole solve phase abstracted as `solveInst` (its result is recorded for the
row).  Every failing parse step, including a `read_ualbp_file` error
(lines 207-211), skips the row with `continue` and goes on with the rest. -/
def processRows (fs : String → Option (List String))
    (solveInst : Nat → Nat → List Int → List (Int × Int) → Nat → Nat)
    : List BatchRow → List (String × Nat × Nat)
  | [] => []
  | row :: rest =>
    let go := processRows fs solveInst rest
    match (if pyStrip row.lb = "NA" then some 1 else pyInt row.lb) with
    | none => go
    | some lbI =>
      match pyRsplit1 (pyStrip row.name) with
      | [instance_name, ct_str] =>
        match pyInt ct_str with
        | none => go
        | some ctI =>
          match fs ("dataset/" ++ instance_name) with
          | none => go
          | some lines =>
            match read_ualbp_file lines with
            | Except.error _ => go
            | Except.ok (n, tasks, precs) =>
              (row.name, lbI.toNat,
                solveInst n lbI.toNat tasks precs ctI.toNat) :: go
      | _ => go

/-- Modelled from the spec: strategy 1 of §4.4 (exhaustive upfront subset
cuts) is absent from the three source files (only the lazy and pseudo-boolean
strategies appear there).  Following the spec's words: "for each station,
recursively enumerate all subsets of tasks in nondecreasing index order;
whenever a subset's cumulative duration first exceeds the bound, emit a
clause forbidding that exact subset's assigned-here indicators from all being
true simultaneously, and do not extend that subset further".  `pending` is
the not-yet-considered `(task index, duration)` list, `current` the subset
built so far, `total` its cumulative duration. -/
def subsetEnum (bound : Nat) :
    List (Nat × Nat) → List Nat → Nat → List (List Nat)
  | [], _, _ => []
  | (i, d) :: rest, current, total =>
    (if bound < total + d then [current ++ [i]]
     else subsetEnum bound rest (current ++ [i]) (total + d))
    ++ subsetEnum bound rest current total

/-- Modelled from the spec: the clauses strategy 1 emits for station `k` -
one per minimal violating subset, forbidding that exact subset's
assigned-here indicators from all being true. -/
def exhaustiveStationCuts (num_tasks num_stations : Nat) (tasks : List Nat)
    (bound k : Nat) : List (List Int) :=
  (subsetEnum bound tasks.enum [] 0).map (fun A =>
    A.map (fun i => -(yVar num_tasks num_stations i k : Int)))

lemma litSat_neg (ν : Nat → Bool) (a : Nat) :
    litSat ν (-(a : Int)) = !(ν a) := by
  have h : ¬ (0 : Int) < -(a : Int) := by omega
  simp [litSat, h]

lemma litSat_pos (ν : Nat → Bool) (a : Nat) (h : 0 < a) :
    litSat ν ((a : Int)) = ν a := by
  have h' : (0 : Int) < (a : Int) := by omega
  simp [litSat, h']

lemma sat_of_mem {ν : Nat → Bool} {cs : List (List Int)} {c : List Int}
    (h : satClauses ν cs = true) (hc : c ∈ cs) : clauseSat ν c = true :=
  List.all_eq_true.1 h c hc

lemma satClauses_append (ν : Nat → Bool) (cs ds : List (List Int)) :
    satClauses ν (cs ++ ds) = (satClauses ν cs && satClauses ν ds) :=
  List.all_append

lemma mul_add_lt_mul_add {i j a b S : Nat} (h : i < j) (ha : a < S) :
    i * S + a < j * S + b := by
  have h1 : (i + 1) * S ≤ j * S := Nat.mul_le_mul_right S (by omega)
  have h2 : i * S + S = (i + 1) * S := by ring
  omega

lemma block_decompose {S i j a b : Nat} (ha : a < S) (hb : b < S) :
    i * S + a = j * S + b ↔ i = j ∧ a = b := by
  constructor
  · intro h
    rcases Nat.lt_trichotomy i j with hij | hij | hij
    · exact absurd h (Nat.ne_of_lt (mul_add_lt_mul_add hij ha))
    · subst hij; exact ⟨rfl, by omega⟩
    · exact absurd h.symm (Nat.ne_of_lt (mul_add_lt_mul_add hij hb))
  · rintro ⟨rfl, rfl⟩; rfl

lemma var_block_eq {S i i' a a' : Nat} (h1 : 1 ≤ a) (h2 : a ≤ S * 2)
    (h3 : 1 ≤ a') (h4 : a' ≤ S * 2) :
    i * S * 2 + a = i' * S * 2 + a' ↔ i = i' ∧ a = a' := by
  have ha : a - 1 < S * 2 := by omega
  have ha' : a' - 1 < S * 2 := by omega
  have hd := @block_decompose (S * 2) i i' (a - 1) (a' - 1) ha ha'
  constructor
  · intro h
    have h' : i * (S * 2) + (a - 1) = i' * (S * 2) + (a' - 1) := by
      rw [← Nat.mul_assoc, ← Nat.mul_assoc]
      omega
    have := hd.1 h'
    omega
  · rintro ⟨rfl, rfl⟩; rfl

lemma xVar_shape (S i k : Nat) : xVar S i k = i * S * 2 + (k + 1) := by
  rw [xVar]; omega

lemma wVar_shape (S i k : Nat) : wVar S i k = i * S * 2 + (S + k + 1) := by
  rw [wVar]; omega

lemma xVar_eq_xVar {S i k i' k' : Nat} (hk : k < S) (hk' : k' < S) :
    xVar S i k = xVar S i' k' ↔ i = i' ∧ k = k' := by
  rw [xVar_shape, xVar_shape,
    var_block_eq (by omega) (by omega) (by omega) (by omega)]
  omega

lemma wVar_eq_wVar {S i k i' k' : Nat} (hk : k < S) (hk' : k' < S) :
    wVar S i k = wVar S i' k' ↔ i = i' ∧ k = k' := by
  rw [wVar_shape, wVar_shape,
    var_block_eq (by omega) (by omega) (by omega) (by omega)]
  omega

lemma xVar_ne_wVar {S i k i' k' : Nat} (hk : k < S) (hk' : k' < S) :
    xVar S i k ≠ wVar S i' k' := by
  rw [xVar_shape, wVar_shape]
  intro h
  have := (@var_block_eq S i i' (k + 1) (S + k' + 1) (by omega) (by omega)
    (by omega) (by omega)).1 h
  omega

lemma yVar_eq_yVar {T S i k i' k' : Nat} (hk : k < S) (hk' : k' < S) :
    yVar T S i k = yVar T S i' k' ↔ i = i' ∧ k = k' := by
  have h : yVar T S i k = yVar T S i' k' ↔ i * S + k = i' * S + k' := by
    rw [yVar, yVar]; omega
  rw [h, block_decompose hk hk']

lemma xVar_pos (S i k : Nat) : 0 < xVar S i k := by
  rw [xVar]; omega

lemma wVar_pos (S i k : Nat) : 0 < wVar S i k := by
  rw [wVar]; omega

lemma yVar_pos (T S i k : Nat) : 0 < yVar T S i k := by
  rw [yVar]; omega

lemma xVar_le {T S i k : Nat} (hi : i < T) (hk : k < S) :
    xVar S i k ≤ T * S * 2 := by
  have h1 : (i + 1) * (S * 2) ≤ T * (S * 2) := Nat.mul_le_mul_right (S * 2) (by omega)
  have h2 : i * (S * 2) + S * 2 = (i + 1) * (S * 2) := by ring
  rw [xVar, Nat.mul_assoc]
  rw [Nat.mul_assoc]
  omega

lemma wVar_le {T S i k : Nat} (hi : i < T) (hk : k < S) :
    wVar S i k ≤ T * S * 2 := by
  have h1 : (i + 1) * (S * 2) ≤ T * (S * 2) := Nat.mul_le_mul_right (S * 2) (by omega)
  have h2 : i * (S * 2) + S * 2 = (i + 1) * (S * 2) := by ring
  rw [wVar, Nat.mul_assoc]
  rw [Nat.mul_assoc]
  omega

lemma yVar_gt {T S i k : Nat} : T * S * 2 < yVar T S i k := by
  rw [yVar]; omega

lemma yVar_le {T S i k : Nat} (hi : i < T) (hk : k < S) :
    yVar T S i k ≤ T * S * 2 + T * S := by
  have h1 : (i + 1) * S ≤ T * S := Nat.mul_le_mul_right S (by omega)
  have h2 : i * S + S = (i + 1) * S := by ring
  rw [yVar]
  omega

lemma xVar_ne_yVar {T S i k i' k' : Nat} (hi : i < T) (hk : k < S) :
    xVar S i k ≠ yVar T S i' k' :=
  Nat.ne_of_lt (Nat.lt_of_le_of_lt (xVar_le hi hk) yVar_gt)

lemma wVar_ne_yVar {T S i k i' k' : Nat} (hi : i < T) (hk : k < S) :
    wVar S i k ≠ yVar T S i' k' :=
  Nat.ne_of_lt (Nat.lt_of_le_of_lt (wVar_le hi hk) yVar_gt)

lemma vars_getD {T S i k : Nat} (hi : i < T) (hk : k < S) :
    ((generate_ualbp_variables T S).getD i []).getD k (0, 0) =
      (xVar S i k, wVar S i k) := by
  simp [generate_ualbp_variables, List.getD, hi, hk]

lemma var0_eq {T S i k : Nat} (hi : i < T) (hk : k < S) :
    var0 (generate_ualbp_variables T S) i k = (xVar S i k : Int) := by
  rw [var0, vars_getD hi hk]

lemma var1_eq {T S i k : Nat} (hi : i < T) (hk : k < S) :
    var1 (generate_ualbp_variables T S) i k = (wVar S i k : Int) := by
  rw [var1, vars_getD hi hk]

lemma yvars_getD {T S i k : Nat} (hi : i < T) (hk : k < S) :
    ((yVarsList T S).getD i []).getD k 0 = yVar T S i k := by
  simp [yVarsList, List.getD, hi, hk]

lemma mem_base_of_assign {T S : Nat} {tasks : List Nat}
    {prec : List (Nat × Nat)} {gv : List (List (Nat × Nat))} {c : List Int}
    (h : c ∈ assignClauses T S gv) :
    c ∈ (generate_base_clauses T S tasks prec gv).1 := by
  rw [generate_base_clauses]
  exact List.mem_append_left _ (List.mem_append_left _ h)

lemma mem_base_of_prec {T S : Nat} {tasks : List Nat}
    {prec : List (Nat × Nat)} {gv : List (List (Nat × Nat))} {c : List Int}
    (h : c ∈ precClauses S gv prec) :
    c ∈ (generate_base_clauses T S tasks prec gv).1 := by
  rw [generate_base_clauses]
  exact List.mem_append_left _ (List.mem_append_right _ h)

lemma mem_base_of_link {T S : Nat} {tasks : List Nat}
    {prec : List (Nat × Nat)} {gv : List (List (Nat × Nat))} {c : List Int}
    (h : c ∈ linkClauses T S gv) :
    c ∈ (generate_base_clauses T S tasks prec gv).1 := by
  rw [generate_base_clauses]
  exact List.mem_append_right _ h

lemma mem_assign_alo {T S i : Nat} {gv : List (List (Nat × Nat))}
    (hi : i < T) :
    ((List.range S).map (fun k => var0 gv i k) ++
      (List.range S).map (fun k => var1 gv i k)) ∈ assignClauses T S gv := by
  rw [assignClauses]
  refine List.mem_flatMap.2 ⟨i, List.mem_range.2 hi, ?_⟩
  simp

lemma mem_assign_bothMode {T S i k : Nat} {gv : List (List (Nat × Nat))}
    (hi : i < T) (hk : k < S) :
    [-(var0 gv i k), -(var1 gv i k)] ∈ assignClauses T S gv := by
  rw [assignClauses]
  refine List.mem_flatMap.2 ⟨i, List.mem_range.2 hi, ?_⟩
  refine List.mem_cons_of_mem _ (List.mem_append_left _ ?_)
  exact List.mem_map.2 ⟨k, List.mem_range.2 hk, rfl⟩

lemma mem_assign_pairX {T S i k1 k2 : Nat} {gv : List (List (Nat × Nat))}
    (hi : i < T) (h12 : k1 < k2) (hk2 : k2 < S) :
    [-(var0 gv i k1), -(var0 gv i k2)] ∈ assignClauses T S gv := by
  rw [assignClauses]
  refine List.mem_flatMap.2 ⟨i, List.mem_range.2 hi, ?_⟩
  refine List.mem_cons_of_mem _ (List.mem_append_right _ ?_)
  refine List.mem_flatMap.2 ⟨k1, List.mem_range.2 (by omega), ?_⟩
  refine List.mem_flatMap.2 ⟨k2, List.mem_range'_1.2 ⟨by omega, by omega⟩, ?_⟩
  simp

lemma mem_assign_pairW {T S i k1 k2 : Nat} {gv : List (List (Nat × Nat))}
    (hi : i < T) (h12 : k1 < k2) (hk2 : k2 < S) :
    [-(var1 gv i k1), -(var1 gv i k2)] ∈ assignClauses T S gv := by
  rw [assignClauses]
  refine List.mem_flatMap.2 ⟨i, List.mem_range.2 hi, ?_⟩
  refine List.mem_cons_of_mem _ (List.mem_append_right _ ?_)
  refine List.mem_flatMap.2 ⟨k1, List.mem_range.2 (by omega), ?_⟩
  refine List.mem_flatMap.2 ⟨k2, List.mem_range'_1.2 ⟨by omega, by omega⟩, ?_⟩
  simp

lemma mem_prec_fwd {S i j k h : Nat} {gv : List (List (Nat × Nat))}
    {prec : List (Nat × Nat)} (hp : (i, j) ∈ prec) (hk : k < S) (hh : h < S)
    (hkh : h ≤ k) :
    [-(var0 gv i k), -(var0 gv j h)] ∈ precClauses S gv prec := by
  rw [precClauses]
  refine List.mem_flatMap.2 ⟨(i, j), hp, ?_⟩
  refine List.mem_append_left _ (List.mem_append_left _ ?_)
  refine List.mem_flatMap.2 ⟨k, List.mem_range.2 hk, ?_⟩
  refine List.mem_map.2 ⟨h, List.mem_filter.2 ⟨List.mem_range.2 hh, by simpa⟩, rfl⟩

lemma mem_prec_bwd {S i j k h : Nat} {gv : List (List (Nat × Nat))}
    {prec : List (Nat × Nat)} (hp : (i, j) ∈ prec) (hk : k < S) (hh : h < S)
    (hkh : k ≤ h) :
    [-(var1 gv i k), -(var1 gv j h)] ∈ precClauses S gv prec := by
  rw [precClauses]
  refine List.mem_flatMap.2 ⟨(i, j), hp, ?_⟩
  refine List.mem_append_left _ (List.mem_append_right _ ?_)
  refine List.mem_flatMap.2 ⟨k, List.mem_range.2 hk, ?_⟩
  refine List.mem_map.2 ⟨h, List.mem_filter.2 ⟨List.mem_range.2 hh, by simpa⟩, rfl⟩

lemma mem_prec_mixed {S i j k h : Nat} {gv : List (List (Nat × Nat))}
    {prec : List (Nat × Nat)} (hp : (i, j) ∈ prec) (hk : k < S) (hh : h < S) :
    [-(var1 gv i k), -(var0 gv j h)] ∈ precClauses S gv prec := by
  rw [precClauses]
  refine List.mem_flatMap.2 ⟨(i, j), hp, ?_⟩
  refine List.mem_append_right _ ?_
  refine List.mem_flatMap.2 ⟨k, List.mem_range.2 hk, ?_⟩
  exact List.mem_map.2 ⟨h, List.mem_range.2 hh, rfl⟩

lemma mem_link1 {T S i k : Nat} {gv : List (List (Nat × Nat))}
    (hi : i < T) (hk : k < S) :
    [-(yVar T S i k : Int), var0 gv i k, var1 gv i k] ∈ linkClauses T S gv := by
  rw [linkClauses]
  refine List.mem_flatMap.2 ⟨i, List.mem_range.2 hi, ?_⟩
  refine List.mem_flatMap.2 ⟨k, List.mem_range.2 hk, ?_⟩
  simp

lemma mem_link2 {T S i k : Nat} {gv : List (List (Nat × Nat))}
    (hi : i < T) (hk : k < S) :
    [-(var0 gv i k), (yVar T S i k : Int)] ∈ linkClauses T S gv := by
  rw [linkClauses]
  refine List.mem_flatMap.2 ⟨i, List.mem_range.2 hi, ?_⟩
  refine List.mem_flatMap.2 ⟨k, List.mem_range.2 hk, ?_⟩
  simp

lemma mem_link3 {T S i k : Nat} {gv : List (List (Nat × Nat))}
    (hi : i < T) (hk : k < S) :
    [-(var1 gv i k), (yVar T S i k : Int)] ∈ linkClauses T S gv := by
  rw [linkClauses]
  refine List.mem_flatMap.2 ⟨i, List.mem_range.2 hi, ?_⟩
  refine List.mem_flatMap.2 ⟨k, List.mem_range.2 hk, ?_⟩
  simp

lemma clauseSat_negPair {ν : Nat → Bool} {a b : Nat}
    (h : clauseSat ν [-(a : Int), -(b : Int)] = true) :
    ν a = false ∨ ν b = false := by
  simp [clauseSat, litSat_neg] at h
  rcases h with h | h
  · exact Or.inl h
  · exact Or.inr h

lemma sat_bothMode {ν : Nat → Bool} {T S i k : Nat} {tasks : List Nat}
    {prec : List (Nat × Nat)}
    (hsat : satClauses ν (generate_base_clauses T S tasks prec
      (generate_ualbp_variables T S)).1 = true)
    (hi : i < T) (hk : k < S) :
    ν (xVar S i k) = false ∨ ν (wVar S i k) = false := by
  have hm := @mem_base_of_assign T S tasks prec _ _
    (@mem_assign_bothMode T S i k (generate_ualbp_variables T S) hi hk)
  have hc := sat_of_mem hsat hm
  rw [var0_eq hi hk, var1_eq hi hk] at hc
  exact clauseSat_negPair hc

lemma sat_pairX {ν : Nat → Bool} {T S i k1 k2 : Nat} {tasks : List Nat}
    {prec : List (Nat × Nat)}
    (hsat : satClauses ν (generate_base_clauses T S tasks prec
      (generate_ualbp_variables T S)).1 = true)
    (hi : i < T) (h12 : k1 < k2) (hk2 : k2 < S) :
    ν (xVar S i k1) = false ∨ ν (xVar S i k2) = false := by
  have hm := @mem_base_of_assign T S tasks prec _ _
    (@mem_assign_pairX T S i k1 k2 (generate_ualbp_variables T S) hi h12 hk2)
  have hc := sat_of_mem hsat hm
  rw [var0_eq hi (by omega), var0_eq hi hk2] at hc
  exact clauseSat_negPair hc

lemma sat_pairW {ν : Nat → Bool} {T S i k1 k2 : Nat} {tasks : List Nat}
    {prec : List (Nat × Nat)}
    (hsat : satClauses ν (generate_base_clauses T S tasks prec
      (generate_ualbp_variables T S)).1 = true)
    (hi : i < T) (h12 : k1 < k2) (hk2 : k2 < S) :
    ν (wVar S i k1) = false ∨ ν (wVar S i k2) = false := by
  have hm := @mem_base_of_assign T S tasks prec _ _
    (@mem_assign_pairW T S i k1 k2 (generate_ualbp_variables T S) hi h12 hk2)
  have hc := sat_of_mem hsat hm
  rw [var1_eq hi (by omega), var1_eq hi hk2] at hc
  exact clauseSat_negPair hc

lemma sat_fwd {ν : Nat → Bool} {T S i j k h : Nat} {tasks : List Nat}
    {prec : List (Nat × Nat)}
    (hsat : satClauses ν (generate_base_clauses T S tasks prec
      (generate_ualbp_variables T S)).1 = true)
    (hp : (i, j) ∈ prec) (hi : i < T) (hj : j < T) (hk : k < S) (hh : h < S)
    (hkh : h ≤ k) :
    ν (xVar S i k) = false ∨ ν (xVar S j h) = false := by
  have hm := @mem_base_of_prec T S tasks prec _ _
    (@mem_prec_fwd S i j k h (generate_ualbp_variables T S) prec hp hk hh hkh)
  have hc := sat_of_mem hsat hm
  rw [var0_eq hi hk, var0_eq hj hh] at hc
  exact clauseSat_negPair hc

lemma sat_bwd {ν : Nat → Bool} {T S i j k h : Nat} {tasks : List Nat}
    {prec : List (Nat × Nat)}
    (hsat : satClauses ν (generate_base_clauses T S tasks prec
      (generate_ualbp_variables T S)).1 = true)
    (hp : (i, j) ∈ prec) (hi : i < T) (hj : j < T) (hk : k < S) (hh : h < S)
    (hkh : k ≤ h) :
    ν (wVar S i k) = false ∨ ν (wVar S j h) = false := by
  have hm := @mem_base_of_prec T S tasks prec _ _
    (@mem_prec_bwd S i j k h (generate_ualbp_variables T S) prec hp hk hh hkh)
  have hc := sat_of_mem hsat hm
  rw [var1_eq hi hk, var1_eq hj hh] at hc
  exact clauseSat_negPair hc

lemma sat_mixed {ν : Nat → Bool} {T S i j k h : Nat} {tasks : List Nat}
    {prec : List (Nat × Nat)}
    (hsat : satClauses ν (generate_base_clauses T S tasks prec
      (generate_ualbp_variables T S)).1 = true)
    (hp : (i, j) ∈ prec) (hi : i < T) (hj : j < T) (hk : k < S) (hh : h < S) :
    ν (wVar S i k) = false ∨ ν (xVar S j h) = false := by
  have hm := @mem_base_of_prec T S tasks prec _ _
    (@mem_prec_mixed S i j k h (generate_ualbp_variables T S) prec hp hk hh)
  have hc := sat_of_mem hsat hm
  rw [var1_eq hi hk, var0_eq hj hh] at hc
  exact clauseSat_negPair hc

lemma sat_alo {ν : Nat → Bool} {T S i : Nat} {tasks : List Nat}
    {prec : List (Nat × Nat)}
    (hsat : satClauses ν (generate_base_clauses T S tasks prec
      (generate_ualbp_variables T S)).1 = true)
    (hi : i < T) :
    ∃ k, k < S ∧ (ν (xVar S i k) = true ∨ ν (wVar S i k) = true) := by
  have hm := @mem_base_of_assign T S tasks prec _ _
    (@mem_assign_alo T S i (generate_ualbp_variables T S) hi)
  have hc := sat_of_mem hsat hm
  rw [clauseSat, List.any_append] at hc
  rcases Bool.or_eq_true_iff.1 hc with hc | hc
  · obtain ⟨l, hl, hsatl⟩ := List.any_eq_true.1 hc
    obtain ⟨k, hk, rfl⟩ := List.mem_map.1 hl
    refine ⟨k, List.mem_range.1 hk, Or.inl ?_⟩
    rw [var0_eq hi (List.mem_range.1 hk)] at hsatl
    rwa [litSat_pos ν _ (xVar_pos S i k)] at hsatl
  · obtain ⟨l, hl, hsatl⟩ := List.any_eq_true.1 hc
    obtain ⟨k, hk, rfl⟩ := List.mem_map.1 hl
    refine ⟨k, List.mem_range.1 hk, Or.inr ?_⟩
    rw [var1_eq hi (List.mem_range.1 hk)] at hsatl
    rwa [litSat_pos ν _ (wVar_pos S i k)] at hsatl

lemma sat_link_y_imp {ν : Nat → Bool} {T S i k : Nat} {tasks : List Nat}
    {prec : List (Nat × Nat)}
    (hsat : satClauses ν (generate_base_clauses T S tasks prec
      (generate_ualbp_variables T S)).1 = true)
    (hi : i < T) (hk : k < S) (hy : ν (yVar T S i k) = true) :
    ν (xVar S i k) = true ∨ ν (wVar S i k) = true := by
  have hm := @mem_base_of_link T S tasks prec _ _
    (@mem_link1 T S i k (generate_ualbp_variables T S) hi hk)
  have hc := sat_of_mem hsat hm
  rw [var0_eq hi hk, var1_eq hi hk] at hc
  simp [clauseSat, litSat_neg, litSat_pos ν _ (xVar_pos S i k),
    litSat_pos ν _ (wVar_pos S i k), hy] at hc
  rcases hc with hc | hc
  · exact Or.inl hc
  · exact Or.inr hc

lemma sat_link_x_y {ν : Nat → Bool} {T S i k : Nat} {tasks : List Nat}
    {prec : List (Nat × Nat)}
    (hsat : satClauses ν (generate_base_clauses T S tasks prec
      (generate_ualbp_variables T S)).1 = true)
    (hi : i < T) (hk : k < S) (hx : ν (xVar S i k) = true) :
    ν (yVar T S i k) = true := by
  have hm := @mem_base_of_link T S tasks prec _ _
    (@mem_link2 T S i k (generate_ualbp_variables T S) hi hk)
  have hc := sat_of_mem hsat hm
  rw [var0_eq hi hk] at hc
  simpa [clauseSat, litSat_neg, litSat_pos ν _ (yVar_pos T S i k), hx] using hc

lemma sat_link_w_y {ν : Nat → Bool} {T S i k : Nat} {tasks : List Nat}
    {prec : List (Nat × Nat)}
    (hsat : satClauses ν (generate_base_clauses T S tasks prec
      (generate_ualbp_variables T S)).1 = true)
    (hi : i < T) (hk : k < S) (hw : ν (wVar S i k) = true) :
    ν (yVar T S i k) = true := by
  have hm := @mem_base_of_link T S tasks prec _ _
    (@mem_link3 T S i k (generate_ualbp_variables T S) hi hk)
  have hc := sat_of_mem hsat hm
  rw [var1_eq hi hk] at hc
  simpa [clauseSat, litSat_neg, litSat_pos ν _ (yVar_pos T S i k), hw] using hc

lemma sat_link_iff {ν : Nat → Bool} {T S i k : Nat} {tasks : List Nat}
    {prec : List (Nat × Nat)}
    (hsat : satClauses ν (generate_base_clauses T S tasks prec
      (generate_ualbp_variables T S)).1 = true)
    (hi : i < T) (hk : k < S) :
    ν (yVar T S i k) = (ν (xVar S i k) || ν (wVar S i k)) := by
  rcases hxw : (ν (xVar S i k) || ν (wVar S i k)) with _ | _
  · rcases Bool.or_eq_false_iff.1 hxw with ⟨hx, hw⟩
    rcases hy : ν (yVar T S i k) with _ | _
    · rfl
    · rcases sat_link_y_imp hsat hi hk hy with h | h
      · rw [hx] at h; exact absurd h (by simp)
      · rw [hw] at h; exact absurd h (by simp)
  · rcases Bool.or_eq_true_iff.1 hxw with hx | hw
    · exact sat_link_x_y hsat hi hk hx
    · exact sat_link_w_y hsat hi hk hw

/-- The literal id for (task, station, mode): mode `true` is the forward
component, `false` the backward component of the allocator's pair. -/
def modeVar (num_stations i k : Nat) (m : Bool) : Nat :=
  if m then xVar num_stations i k else wVar num_stations i k

/-- Number of occurrences of task `i` across the stations of a decoded
solution. -/
def taskOccurrences (sol : List (List (Nat × Bool))) (i : Nat) : Nat :=
  (sol.map (fun st => st.countP (fun e => e.1 == i))).sum

lemma modeVar_inj {T S i k i' k' : Nat} {m m' : Bool} (hi : i < T)
    (hk : k < S) (hi' : i' < T) (hk' : k' < S)
    (h : modeVar S i k m = modeVar S i' k' m') :
    i = i' ∧ k = k' ∧ m = m' := by
  rcases m with _ | _ <;> rcases m' with _ | _ <;> rw [modeVar, modeVar] at h
  · simp only [if_neg Bool.false_ne_true] at h
    have := (wVar_eq_wVar hk hk').1 (by simpa using h)
    exact ⟨this.1, this.2, rfl⟩
  · exfalso; exact xVar_ne_wVar hk' hk (by simpa using h.symm)
  · exfalso; exact xVar_ne_wVar hk hk' (by simpa using h)
  · have := (xVar_eq_xVar hk hk').1 (by simpa using h)
    exact ⟨this.1, this.2, rfl⟩

lemma modeVar_bounds {T S i k : Nat} (m : Bool) (hi : i < T) (hk : k < S) :
    1 ≤ modeVar S i k m ∧ modeVar S i k m ≤ T * S * 2 := by
  rcases m with _ | _ <;> rw [modeVar]
  · exact ⟨wVar_pos S i k, wVar_le hi hk⟩
  · exact ⟨xVar_pos S i k, xVar_le hi hk⟩

lemma wVar_last {T S : Nat} (hT : 0 < T) (hS : 0 < S) :
    wVar S (T - 1) (S - 1) = T * S * 2 := by
  have e : T * (S * 2) = (T - 1) * (S * 2) + S * 2 := by
    have hT' : T = (T - 1) + 1 := by omega
    calc T * (S * 2) = ((T - 1) + 1) * (S * 2) := by rw [← hT']
    _ = (T - 1) * (S * 2) + S * 2 := by ring
  have h2 : (T - 1) * S * 2 = (T - 1) * (S * 2) := Nat.mul_assoc _ _ _
  have h3 : T * S * 2 = T * (S * 2) := Nat.mul_assoc _ _ _
  rw [wVar_shape, h2, h3]
  omega

/-- C6: the variable allocator is injective on in-range (task, station, mode)
triples, its primary ids fill `[1, numTasks*numStations*2]` with the maximum
attained, and the assigned-here indicator ids form an injective third block
`[numTasks*numStations*2 + 1, numTasks*numStations*2 + numTasks*numStations]`
starting immediately after that maximum. -/
theorem ualbp_variable_allocation (T S i k i' k' : Nat) (m m' : Bool)
    (hi : i < T) (hk : k < S) (hi' : i' < T) (hk' : k' < S) :
    ((generate_ualbp_variables T S).getD i []).getD k (0, 0) =
      (xVar S i k, wVar S i k) ∧
    (modeVar S i k m = modeVar S i' k' m' → i = i' ∧ k = k' ∧ m = m') ∧
    (1 ≤ modeVar S i k m ∧ modeVar S i k m ≤ T * S * 2) ∧
    wVar S (T - 1) (S - 1) = T * S * 2 ∧
    (T * S * 2 + 1 ≤ yVar T S i k ∧ yVar T S i k ≤ T * S * 2 + T * S) ∧
    yVar T S 0 0 = T * S * 2 + 1 ∧
    (yVar T S i k = yVar T S i' k' → i = i' ∧ k = k') := by
  refine ⟨vars_getD hi hk, fun h => modeVar_inj hi hk hi' hk' h,
    modeVar_bounds m hi hk, wVar_last (by omega) (by omega),
    ⟨yVar_gt, yVar_le hi hk⟩, by rw [yVar]; omega,
    fun h => (yVar_eq_yVar hk hk').1 h⟩

/-- C6 witness: the allocation facts instantiated at
`numTasks = 2`, `numStations = 2`, triples `(0,1,forward)` and
`(1,0,backward)`. -/
theorem ualbp_variable_allocation_witness :
    ((generate_ualbp_variables 2 2).getD 0 []).getD 1 (0, 0) =
      (xVar 2 0 1, wVar 2 0 1) ∧
    (modeVar 2 0 1 true = modeVar 2 1 0 false → 0 = 1 ∧ 1 = 0 ∧ true = false) ∧
    (1 ≤ modeVar 2 0 1 true ∧ modeVar 2 0 1 true ≤ 2 * 2 * 2) ∧
    wVar 2 (2 - 1) (2 - 1) = 2 * 2 * 2 ∧
    (2 * 2 * 2 + 1 ≤ yVar 2 2 0 1 ∧ yVar 2 2 0 1 ≤ 2 * 2 * 2 + 2 * 2) ∧
    yVar 2 2 0 0 = 2 * 2 * 2 + 1 ∧
    (yVar 2 2 0 1 = yVar 2 2 1 0 → 0 = 1 ∧ 1 = 0) :=
  ualbp_variable_allocation 2 2 0 1 1 0 true false (by decide) (by decide)
    (by decide) (by decide)

/-- C3: in every model of the base clauses, a precedence pair (i, j) with
both tasks forward-assigned has i's station strictly before j's; with both
backward-assigned, strictly after; and i backward together with j forward is
impossible. -/
theorem precedence_directional_ordering (ν : Nat → Bool)
    (T S i j k h : Nat) (tasks : List Nat) (prec : List (Nat × Nat))
    (hsat : satClauses ν (generate_base_clauses T S tasks prec
      (generate_ualbp_variables T S)).1 = true)
    (hp : (i, j) ∈ prec) (hi : i < T) (hj : j < T) (hk : k < S) (hh : h < S) :
    (ν (xVar S i k) = true → ν (xVar S j h) = true → k < h) ∧
    (ν (wVar S i k) = true → ν (wVar S j h) = true → h < k) ∧
    ¬(ν (wVar S i k) = true ∧ ν (xVar S j h) = true) := by
  refine ⟨?_, ?_, ?_⟩
  · intro hx hx'
    by_contra hlt
    rcases sat_fwd hsat hp hi hj hk hh (by omega) with hf | hf
    · rw [hx] at hf; exact absurd hf (by simp)
    · rw [hx'] at hf; exact absurd hf (by simp)
  · intro hw hw'
    by_contra hlt
    rcases sat_bwd hsat hp hi hj hk hh (by omega) with hf | hf
    · rw [hw] at hf; exact absurd hf (by simp)
    · rw [hw'] at hf; exact absurd hf (by simp)
  · rintro ⟨hw, hx⟩
    rcases sat_mixed hsat hp hi hj hk hh with hf | hf
    · rw [hw] at hf; exact absurd hf (by simp)
    · rw [hx] at hf; exact absurd hf (by simp)

/-- C3 witness: the instance with tasks 0 → 1 both forward, task 0 at
station 0 and task 1 at station 1, under a concrete satisfying model. -/
theorem precedence_directional_ordering_witness :
    (listModel [1, 6, 9, 12] (xVar 2 0 0) = true →
      listModel [1, 6, 9, 12] (xVar 2 1 1) = true → 0 < 1) ∧
    (listModel [1, 6, 9, 12] (wVar 2 0 0) = true →
      listModel [1, 6, 9, 12] (wVar 2 1 1) = true → 1 < 0) ∧
    ¬(listModel [1, 6, 9, 12] (wVar 2 0 0) = true ∧
      listModel [1, 6, 9, 12] (xVar 2 1 1) = true) :=
  precedence_directional_ordering (listModel [1, 6, 9, 12]) 2 2 0 1 0 1
    [1, 1] [(0, 1)] (by decide) (by decide) (by decide) (by decide)
    (by decide) (by decide)

/-- C10: in every model of the lazy base clauses, the assigned-here
indicator `y[i][k]` is exactly the disjunction of the forward and backward
literals of task i at station k. -/
theorem indicator_matches_mode_literals (ν : Nat → Bool) (T S i k : Nat)
    (tasks : List Nat) (prec : List (Nat × Nat))
    (hsat : satClauses ν (generate_base_clauses T S tasks prec
      (generate_ualbp_variables T S)).1 = true)
    (hi : i < T) (hk : k < S) :
    ν (yVar T S i k) = (ν (xVar S i k) || ν (wVar S i k)) :=
  sat_link_iff hsat hi hk

/-- C10 witness: the indicator equivalence at a one-task one-station
instance under a concrete satisfying model. -/
theorem indicator_matches_mode_literals_witness :
    listModel [1, 3] (yVar 1 1 0 0) =
      (listModel [1, 3] (xVar 1 0 0) || listModel [1, 3] (wVar 1 0 0)) :=
  indicator_matches_mode_literals (listModel [1, 3]) 1 1 0 0 [1] []
    (by decide) (by decide) (by decide)

/-- C1 (code bug): the base clauses of `generate_base_clauses` do NOT force
one (station, mode) per task - with one task and two stations the model
taking the task forward at station 0 AND backward at station 1 (with both
indicators true) satisfies every emitted clause, and the decoder then places
the task in both stations. -/
theorem base_clauses_admit_double_assignment :
    satClauses (listModel [1, 4, 5, 6])
      (generate_base_clauses 1 2 [1] []
        (generate_ualbp_variables 1 2)).1 = true ∧
    taskOccurrences (decodeSolution (listModel [1, 4, 5, 6]) 1 2
      (generate_ualbp_variables 1 2)) 0 = 2 := by
  decide

lemma check_cycle_time_mem {ν : Nat → Bool} {T S : Nat} {tasks : List Nat}
    {yv : List (List Nat)} {ct : Nat} {v : Nat × List Nat × Nat}
    (h : v ∈ check_cycle_time ν T S tasks yv ct) :
    v.1 < S ∧
    v.2.1 = (List.range T).filter (fun i => ν ((yv.getD i []).getD v.1 0)) ∧
    v.2.2 = (v.2.1.map (fun i => tasks.getD i 0)).sum ∧ ct < v.2.2 := by
  rw [check_cycle_time] at h
  obtain ⟨k, hk, hfk⟩ := List.mem_filterMap.1 h
  by_cases hcond : ct <
      ((((List.range T).filter (fun i => ν ((yv.getD i []).getD k 0))).map
        (fun i => tasks.getD i 0)).sum)
  · simp only [if_pos hcond] at hfk
    obtain rfl := Option.some_injective _ hfk
    exact ⟨List.mem_range.1 hk, rfl, rfl, hcond⟩
  · simp only [if_neg hcond] at hfk
    exact absurd hfk (by simp)

lemma filterMap_fst_sublist {α β : Type} (l : List α) (f : α → Option β)
    (g : β → α) (h : ∀ a b, f a = some b → g b = a) :
    List.Sublist ((l.filterMap f).map g) l := by
  induction l with
  | nil => simp
  | cons a l ih =>
    rcases hfa : f a with _ | b
    · rw [List.filterMap_cons_none hfa]
      exact (ih).cons a
    · rw [List.filterMap_cons_some hfa, List.map_cons, h a b hfa]
      exact (ih).cons₂ a

lemma check_cycle_time_stations_sublist (ν : Nat → Bool) (T S : Nat)
    (tasks : List Nat) (yv : List (List Nat)) (ct : Nat) :
    List.Sublist ((check_cycle_time ν T S tasks yv ct).map (fun v => v.1))
      (List.range S) := by
  rw [check_cycle_time]
  refine filterMap_fst_sublist _ _ _ ?_
  intro k v hv
  by_cases hcond : ct <
      ((((List.range T).filter (fun i => ν ((yv.getD i []).getD k 0))).map
        (fun i => tasks.getD i 0)).sum)
  · simp only [if_pos hcond] at hv
    obtain rfl := Option.some_injective _ hv
    rfl
  · simp only [if_neg hcond] at hv
    exact absurd hv (by simp)

lemma assigned_filter_yVar {ν : Nat → Bool} {T S k : Nat} (hk : k < S) :
    (List.range T).filter
        (fun i => ν (((yVarsList T S).getD i []).getD k 0)) =
      (List.range T).filter (fun i => ν (yVar T S i k)) := by
  refine List.filter_congr ?_
  intro i hi
  rw [yvars_getD (List.mem_range.1 hi) hk]

lemma cutClause_eq_yVar {T S : Nat} {v : Nat × List Nat × Nat}
    (hk : v.1 < S) (hsub : ∀ i ∈ v.2.1, i < T) :
    cutClause (yVarsList T S) v =
      v.2.1.map (fun i => -(yVar T S i v.1 : Int)) := by
  rw [cutClause]
  refine List.map_congr_left ?_
  intro i hi
  rw [yvars_getD (hsub i hi) hk]

/-- C5: one refinement step of the lazy loop, after a SAT answer with
violations, re-enters the loop with the clause set extended (nothing
removed) by exactly one cut per violated station; each reported violation
carries precisely the tasks whose indicator is true at that station in the
model, its excess duration sum, and its cut clause is the disjunction of
those tasks' negated indicators. -/
theorem lazy_refinement_cut_step
    (oracle : List (List Int) → Option (Nat → Bool)) (fuel T S : Nat)
    (tasks : List Nat) (prec : List (Nat × Nat)) (ct : Nat)
    (extra : List (List Int)) (ν : Nat → Bool)
    (hor : oracle ((generate_base_clauses T S tasks prec
      (generate_ualbp_variables T S)).1 ++ extra) = some ν)
    (hviol : check_cycle_time ν T S tasks (yVarsList T S) ct ≠ []) :
    iterLoop oracle (generate_base_clauses T S tasks prec
        (generate_ualbp_variables T S)).1 (yVarsList T S) T S tasks
        (generate_ualbp_variables T S) ct (fuel + 1) extra =
      iterLoop oracle (generate_base_clauses T S tasks prec
        (generate_ualbp_variables T S)).1 (yVarsList T S) T S tasks
        (generate_ualbp_variables T S) ct fuel
        (extra ++ (check_cycle_time ν T S tasks (yVarsList T S) ct).map
          (cutClause (yVarsList T S))) ∧
    ((check_cycle_time ν T S tasks (yVarsList T S) ct).map
        (cutClause (yVarsList T S))).length =
      (check_cycle_time ν T S tasks (yVarsList T S) ct).length ∧
    List.Sublist ((check_cycle_time ν T S tasks (yVarsList T S) ct).map
      (fun v => v.1)) (List.range S) ∧
    ∀ v ∈ check_cycle_time ν T S tasks (yVarsList T S) ct,
      v.1 < S ∧
      v.2.1 = (List.range T).filter (fun i => ν (yVar T S i v.1)) ∧
      v.2.2 = (v.2.1.map (fun i => tasks.getD i 0)).sum ∧ ct < v.2.2 ∧
      cutClause (yVarsList T S) v =
        v.2.1.map (fun i => -(yVar T S i v.1 : Int)) := by
  refine ⟨?_, List.length_map _ _, check_cycle_time_stations_sublist ν T S
    tasks (yVarsList T S) ct, ?_⟩
  · have hne : (check_cycle_time ν T S tasks (yVarsList T S) ct).isEmpty
        = false := by
      rcases hx : check_cycle_time ν T S tasks (yVarsList T S) ct with _ | _
      · exact absurd hx hviol
      · rfl
    rw [iterLoop, hor]
    simp only [hne]
    rfl
  · intro v hv
    obtain ⟨h1, h2, h3, h4⟩ := check_cycle_time_mem hv
    have h2' : v.2.1 = (List.range T).filter (fun i => ν (yVar T S i v.1)) :=
      h2.trans (assigned_filter_yVar h1)
    have hsub : ∀ i ∈ v.2.1, i < T := by
      intro i hi
      rw [h2'] at hi
      exact List.mem_range.1 (List.mem_of_mem_filter hi)
    exact ⟨h1, h2', h3, h4, cutClause_eq_yVar h1 hsub⟩

/-- C5 witness: the step lemma instantiated at two unit-duration tasks, one
station, cycle time 1, where the model packs both tasks forward into
station 0 and the single violation produces the cut over tasks 0 and 1. -/
theorem lazy_refinement_cut_step_witness :
    iterLoop (fun _ => some (listModel [1, 3, 5, 6]))
        (generate_base_clauses 2 1 [1, 1] []
          (generate_ualbp_variables 2 1)).1 (yVarsList 2 1) 2 1 [1, 1]
        (generate_ualbp_variables 2 1) 1 1 [] =
      iterLoop (fun _ => some (listModel [1, 3, 5, 6]))
        (generate_base_clauses 2 1 [1, 1] []
          (generate_ualbp_variables 2 1)).1 (yVarsList 2 1) 2 1 [1, 1]
        (generate_ualbp_variables 2 1) 1 0
        ([] ++ (check_cycle_time (listModel [1, 3, 5, 6]) 2 1 [1, 1]
          (yVarsList 2 1) 1).map (cutClause (yVarsList 2 1))) ∧
    ((check_cycle_time (listModel [1, 3, 5, 6]) 2 1 [1, 1]
        (yVarsList 2 1) 1).map (cutClause (yVarsList 2 1))).length =
      (check_cycle_time (listModel [1, 3, 5, 6]) 2 1 [1, 1]
        (yVarsList 2 1) 1).length ∧
    List.Sublist ((check_cycle_time (listModel [1, 3, 5, 6]) 2 1 [1, 1]
      (yVarsList 2 1) 1).map (fun v => v.1)) (List.range 1) ∧
    ∀ v ∈ check_cycle_time (listModel [1, 3, 5, 6]) 2 1 [1, 1]
        (yVarsList 2 1) 1,
      v.1 < 1 ∧
      v.2.1 = (List.range 2).filter
        (fun i => listModel [1, 3, 5, 6] (yVar 2 1 i v.1)) ∧
      v.2.2 = (v.2.1.map (fun i => [1, 1].getD i 0)).sum ∧ 1 < v.2.2 ∧
      cutClause (yVarsList 2 1) v =
        v.2.1.map (fun i => -(yVar 2 1 i v.1 : Int)) :=
  lazy_refinement_cut_step (fun _ => some (listModel [1, 3, 5, 6])) 0 2 1
    [1, 1] [] 1 [] (listModel [1, 3, 5, 6]) (by rfl) (by decide)

lemma le_clauseMaxVar {c : List Int} {l : Int} (h : l ∈ c) :
    l.natAbs ≤ clauseMaxVar c := by
  induction c with
  | nil => cases h
  | cons a c ih =>
    rw [clauseMaxVar, List.foldr_cons]
    rcases List.mem_cons.1 h with rfl | h'
    · exact Nat.le_max_left _ _
    · exact Nat.le_trans (ih h') (Nat.le_max_right _ _)

lemma le_clausesMaxVar {cs : List (List Int)} {c : List Int} (h : c ∈ cs) :
    clauseMaxVar c ≤ clausesMaxVar cs := by
  induction cs with
  | nil => cases h
  | cons a cs ih =>
    rw [clausesMaxVar, List.foldr_cons]
    rcases List.mem_cons.1 h with rfl | h'
    · exact Nat.le_max_left _ _
    · exact Nat.le_trans (ih h') (Nat.le_max_right _ _)

lemma all_congr_of_mem {α : Type} {p q : α → Bool} :
    ∀ (l : List α), (∀ x ∈ l, p x = q x) → l.all p = l.all q
  | [], _ => rfl
  | a :: l, h => by
    rw [List.all_cons, List.all_cons, h a (List.mem_cons_self a l),
      all_congr_of_mem l (fun x hx => h x (List.mem_cons_of_mem a hx))]

lemma any_congr_of_mem {α : Type} {p q : α → Bool} :
    ∀ (l : List α), (∀ x ∈ l, p x = q x) → l.any p = l.any q
  | [], _ => rfl
  | a :: l, h => by
    rw [List.any_cons, List.any_cons, h a (List.mem_cons_self a l),
      any_congr_of_mem l (fun x hx => h x (List.mem_cons_of_mem a hx))]

lemma satClauses_congr {ν ν' : Nat → Bool} (cs : List (List Int))
    (h : ∀ v, v ≤ clausesMaxVar cs → ν v = ν' v) :
    satClauses ν cs = satClauses ν' cs := by
  rw [satClauses, satClauses]
  refine all_congr_of_mem cs ?_
  intro c hc
  rw [clauseSat, clauseSat]
  refine any_congr_of_mem c ?_
  intro l hl
  have hb : l.natAbs ≤ clausesMaxVar cs :=
    Nat.le_trans (le_clauseMaxVar hl) (le_clausesMaxVar hc)
  rw [litSat, litSat, h l.natAbs hb]

lemma listModel_eq_mem (L : List Nat) (v : Nat) :
    listModel L v = true ↔ v ∈ L := by
  rw [listModel]
  exact List.elem_iff

lemma bruteOracle_sound :
    ∀ cs ν, bruteOracle cs = some ν → satClauses ν cs = true := by
  intro cs ν h
  rw [bruteOracle] at h
  rcases hf : ((List.range (clausesMaxVar cs + 1)).sublists).find?
      (fun L => satClauses (listModel L) cs) with _ | L
  · rw [hf] at h
    exact absurd h (by simp)
  · rw [hf] at h
    have hL := List.find?_some hf
    have : ν = listModel L := by
      simpa using h.symm
    rw [this]
    exact hL

lemma bruteOracle_complete :
    ∀ cs, bruteOracle cs = none → ∀ ν, satClauses ν cs = false := by
  intro cs h ν
  by_contra hne
  have hsat : satClauses ν cs = true := by
    rcases hx : satClauses ν cs with _ | _
    · exact absurd hx hne
    · rfl
  set n := clausesMaxVar cs with hn
  set L := (List.range (n + 1)).filter (fun v => ν v) with hL
  have hagree : ∀ v, v ≤ n → listModel L v = ν v := by
    intro v hv
    rcases hx : ν v with _ | _
    · rcases hy : listModel L v with _ | _
      · rfl
      · have := (listModel_eq_mem L v).1 hy
        rw [hL] at this
        have := List.of_mem_filter this
        rw [hx] at this
        exact absurd this (by simp)
    · refine (listModel_eq_mem L v).2 ?_
      rw [hL]
      exact List.mem_filter.2 ⟨List.mem_range.2 (by omega), by rw [hx]⟩
  have hsatL : satClauses (listModel L) cs = true := by
    rw [satClauses_congr cs hagree]
    exact hsat
  have hmem : L ∈ (List.range (n + 1)).sublists :=
    List.mem_sublists.2 (List.filter_sublist _)
  rw [bruteOracle] at h
  rcases hf : ((List.range (clausesMaxVar cs + 1)).sublists).find?
      (fun L => satClauses (listModel L) cs) with _ | L'
  · have := List.find?_eq_none.1 hf L (by rw [← hn]; exact hmem)
    exact this hsatL
  · rw [hf] at h
    exact absurd h (by simp)

lemma iterLoop_success_inversion
    {oracle : List (List Int) → Option (Nat → Bool)}
    {base : List (List Int)} {yv : List (List Nat)} {T S : Nat}
    {tasks : List Nat} {gv : List (List (Nat × Nat))} {ct : Nat}
    {sol : List (List (Nat × Bool))} :
    ∀ {fuel : Nat} {extra : List (List Int)},
    iterLoop oracle base yv T S tasks gv ct fuel extra = some (some sol) →
    ∃ ex ν, oracle (base ++ ex) = some ν ∧
      check_cycle_time ν T S tasks yv ct = [] ∧
      sol = decodeSolution ν T S gv := by
  intro fuel
  induction fuel with
  | zero => intro extra h; exact absurd h (by rw [iterLoop]; simp)
  | succ fuel ih =>
    intro extra h
    rw [iterLoop] at h
    rcases hor : oracle (base ++ extra) with _ | ν
    · rw [hor] at h
      exact absurd h (by simp)
    · rw [hor] at h
      rcases hvi : (check_cycle_time ν T S tasks yv ct).isEmpty with _ | _
      · simp only [hvi, Bool.false_eq_true, if_false] at h
        exact ih h
      · simp only [hvi, if_true] at h
        refine ⟨extra, ν, hor, List.isEmpty_iff.1 hvi, ?_⟩
        exact (Option.some_injective _ (Option.some_injective _ h)).symm

lemma decode_getD {ν : Nat → Bool} {T S k : Nat} (hk : k < S) :
    (decodeSolution ν T S (generate_ualbp_variables T S)).getD k [] =
      (List.range T).filterMap (fun i =>
        if ν (xVar S i k) then some (i, true)
        else if ν (wVar S i k) then some (i, false) else none) := by
  rw [decodeSolution]
  have h1 : (((List.range S).map (fun k => (List.range T).filterMap (fun i =>
      if ν ((var0 (generate_ualbp_variables T S) i k).natAbs) then
        some (i, true)
      else if ν ((var1 (generate_ualbp_variables T S) i k).natAbs) then
        some (i, false)
      else none))).getD k []) = (List.range T).filterMap (fun i =>
        if ν ((var0 (generate_ualbp_variables T S) i k).natAbs) then
          some (i, true)
        else if ν ((var1 (generate_ualbp_variables T S) i k).natAbs) then
          some (i, false)
        else none) := by
    simp [List.getD, hk]
  rw [h1]
  refine List.filterMap_congr ?_
  intro i hi
  rw [var0_eq (List.mem_range.1 hi) hk, var1_eq (List.mem_range.1 hi) hk]
  simp

lemma decode_station_sum (l : List Nat) (ν : Nat → Bool) (S k : Nat)
    (g : Nat → Nat) :
    (((l.filterMap (fun i =>
        if ν (xVar S i k) then some (i, true)
        else if ν (wVar S i k) then some (i, false) else none)).map
          (fun p => g p.1)).sum) =
      ((l.filter (fun i => ν (xVar S i k) || ν (wVar S i k))).map g).sum := by
  induction l with
  | nil => rfl
  | cons a l ih =>
    rcases hx : ν (xVar S a k) with _ | _
    · rcases hw : ν (wVar S a k) with _ | _
      · simp [List.filterMap_cons, List.filter_cons, hx, hw, ih]
      · simp [List.filterMap_cons, List.filter_cons, hx, hw, ih]
    · simp [List.filterMap_cons, List.filter_cons, hx, ih]

lemma check_empty_bound {ν : Nat → Bool} {T S : Nat} {tasks : List Nat}
    {ct k : Nat} (hk : k < S)
    (h : check_cycle_time ν T S tasks (yVarsList T S) ct = []) :
    (((List.range T).filter (fun i => ν (yVar T S i k))).map
      (fun i => tasks.getD i 0)).sum ≤ ct := by
  rw [check_cycle_time] at h
  have hnone := (List.filterMap_eq_nil_iff.1 h) k (List.mem_range.2 hk)
  by_cases hcond : ct <
      ((((List.range T).filter
        (fun i => ν (((yVarsList T S).getD i []).getD k 0))).map
          (fun i => tasks.getD i 0)).sum)
  · rw [if_pos hcond] at hnone
    exact absurd hnone (by simp)
  · rw [assigned_filter_yVar hk] at hcond
    omega

/-- C2: whenever the lazy refinement loop returns a solution, it is the
decoding of a model for which `check_cycle_time` reported no violated
station, and consequently every station of the decoded solution has summed
task duration at most the cycle-time bound. -/
theorem returned_solution_respects_cycle_time
    (oracle : List (List Int) → Option (Nat → Bool))
    (hsound : ∀ cs ν, oracle cs = some ν → satClauses ν cs = true)
    (fuel T S : Nat) (tasks : List Nat) (prec : List (Nat × Nat)) (ct : Nat)
    (sol : List (List (Nat × Bool)))
    (hrun : solve_ualbp_iterative oracle fuel T S tasks prec ct =
      some (some sol)) :
    (∃ ν, check_cycle_time ν T S tasks (yVarsList T S) ct = [] ∧
      sol = decodeSolution ν T S (generate_ualbp_variables T S) ∧
      satClauses ν (generate_base_clauses T S tasks prec
        (generate_ualbp_variables T S)).1 = true) ∧
    ∀ k, k < S →
      ((sol.getD k []).map (fun p => tasks.getD p.1 0)).sum ≤ ct := by
  rw [solve_ualbp_iterative] at hrun
  obtain ⟨ex, ν, hor, hchk, hdec⟩ := iterLoop_success_inversion hrun
  have hbase : satClauses ν (generate_base_clauses T S tasks prec
      (generate_ualbp_variables T S)).1 = true := by
    have := hsound _ _ hor
    rw [satClauses_append] at this
    exact (Bool.and_eq_true_iff.1 this).1
  refine ⟨⟨ν, hchk, hdec, hbase⟩, ?_⟩
  intro k hk
  rw [hdec, decode_getD hk,
    decode_station_sum (List.range T) ν S k (fun i => tasks.getD i 0)]
  have hfc : (List.range T).filter
      (fun i => ν (xVar S i k) || ν (wVar S i k)) =
      (List.range T).filter (fun i => ν (yVar T S i k)) := by
    refine List.filter_congr ?_
    intro i hi
    exact (sat_link_iff hbase (List.mem_range.1 hi) hk).symm
  rw [hfc]
  exact check_empty_bound hk hchk

/-- C2 witness: a one-task instance solved by the brute-force oracle; the
loop returns the solution placing task 0 forward in station 0 and the
station load 1 is within the bound 1. -/
theorem returned_solution_respects_cycle_time_witness :
    (∃ ν, check_cycle_time ν 1 1 [1] (yVarsList 1 1) 1 = [] ∧
      [[(0, true)]] = decodeSolution ν 1 1 (generate_ualbp_variables 1 1) ∧
      satClauses ν (generate_base_clauses 1 1 [1] []
        (generate_ualbp_variables 1 1)).1 = true) ∧
    ∀ k, k < 1 →
      (([[(0, true)]].getD k []).map (fun p => [1].getD p.1 0)).sum ≤ 1 :=
  returned_solution_respects_cycle_time bruteOracle bruteOracle_sound
    1 1 1 [1] [] 1 [[(0, true)]] (by decide)

/-- The "one task per station, forward" model used by the termination
argument: variable `v` is true iff it is `X[i][i]` or `y[i][i]` for some
task `i`. -/
def idModel (T S : Nat) : Nat → Bool :=
  fun v => (List.range T).any (fun i =>
    v == xVar S i i || v == yVar T S i i)

lemma clauseSat_of_lit {ν : Nat → Bool} {c : List Int} {l : Int}
    (hl : l ∈ c) (h : litSat ν l = true) : clauseSat ν c = true :=
  List.any_eq_true.2 ⟨l, hl, h⟩

lemma idModel_x_self {T S i : Nat} (hi : i < T) :
    idModel T S (xVar S i i) = true := by
  rw [idModel]
  exact List.any_eq_true.2 ⟨i, List.mem_range.2 hi, by simp⟩

lemma idModel_x_ne {T S i k : Nat} (hTS : T ≤ S) (hi : i < T) (hk : k < S)
    (hne : k ≠ i) : idModel T S (xVar S i k) = false := by
  rcases hx : idModel T S (xVar S i k) with _ | _
  · rfl
  · exfalso
    rw [idModel] at hx
    obtain ⟨j, hj, hpj⟩ := List.any_eq_true.1 hx
    have hjS : j < S := by
      have := List.mem_range.1 hj
      omega
    rcases Bool.or_eq_true_iff.1 hpj with h | h
    · obtain ⟨hij, hkj⟩ := (xVar_eq_xVar hk hjS).1 (eq_of_beq h)
      omega
    · exact xVar_ne_yVar hi hk (eq_of_beq h)

lemma idModel_w {T S i k : Nat} (hTS : T ≤ S) (hi : i < T) (hk : k < S) :
    idModel T S (wVar S i k) = false := by
  rcases hx : idModel T S (wVar S i k) with _ | _
  · rfl
  · exfalso
    rw [idModel] at hx
    obtain ⟨j, hj, hpj⟩ := List.any_eq_true.1 hx
    have hjT : j < T := List.mem_range.1 hj
    have hjS : j < S := by omega
    rcases Bool.or_eq_true_iff.1 hpj with h | h
    · exact xVar_ne_wVar hjS hk (eq_of_beq h).symm
    · exact wVar_ne_yVar hi hk (eq_of_beq h)

lemma idModel_y_self {T S i : Nat} (hi : i < T) :
    idModel T S (yVar T S i i) = true := by
  rw [idModel]
  exact List.any_eq_true.2 ⟨i, List.mem_range.2 hi, by simp⟩

lemma idModel_y_ne {T S i k : Nat} (hTS : T ≤ S) (hi : i < T) (hk : k < S)
    (hne : k ≠ i) : idModel T S (yVar T S i k) = false := by
  rcases hx : idModel T S (yVar T S i k) with _ | _
  · rfl
  · exfalso
    rw [idModel] at hx
    obtain ⟨j, hj, hpj⟩ := List.any_eq_true.1 hx
    have hjT : j < T := List.mem_range.1 hj
    have hjS : j < S := by omega
    rcases Bool.or_eq_true_iff.1 hpj with h | h
    · exact xVar_ne_yVar hjT hjS (eq_of_beq h).symm
    · obtain ⟨hij, hkj⟩ := (yVar_eq_yVar hk hjS).1 (eq_of_beq h)
      omega

lemma idModel_sat_base {T S : Nat} (tasks : List Nat)
    {prec : List (Nat × Nat)} (hTS : T ≤ S)
    (hprec : ∀ p ∈ prec, p.1 < p.2 ∧ p.2 < T) :
    satClauses (idModel T S) (generate_base_clauses T S tasks prec
      (generate_ualbp_variables T S)).1 = true := by
  rw [satClauses, List.all_eq_true]
  intro c hc
  rw [generate_base_clauses] at hc
  rw [List.append_assoc] at hc
  rcases List.mem_append.1 hc with hca | hcb
  · -- assignment block
    obtain ⟨i, hi, hci⟩ := List.mem_flatMap.1 hca
    have hiT : i < T := List.mem_range.1 hi
    have hiS : i < S := by omega
    rw [List.append_assoc] at hci
    rcases List.mem_append.1 hci with h1 | h1
    · -- the at-least-one clause
      rw [List.mem_singleton.1 h1]
      refine clauseSat_of_lit
        (l := var0 (generate_ualbp_variables T S) i i)
        (List.mem_append_left _
          (List.mem_map.2 ⟨i, List.mem_range.2 hiS, rfl⟩)) ?_
      rw [var0_eq hiT hiS, litSat_pos _ _ (xVar_pos S i i),
        idModel_x_self hiT]
    · rcases List.mem_append.1 h1 with h2 | h2
      · -- not-both-modes at one station
        obtain ⟨k, hk, hceq⟩ := List.mem_map.1 h2
        have hkS := List.mem_range.1 hk
        rw [← hceq]
        refine clauseSat_of_lit
          (l := -(var1 (generate_ualbp_variables T S) i k)) (by simp) ?_
        rw [var1_eq hiT hkS, litSat_neg, idModel_w hTS hiT hkS]
        rfl
      · -- pairwise at-most-one per mode
        obtain ⟨k1, hk1, h3⟩ := List.mem_flatMap.1 h2
        obtain ⟨k2, hk2, h4⟩ := List.mem_flatMap.1 h3
        have hk1S : k1 < S := List.mem_range.1 hk1
        have hk2r := List.mem_range'_1.1 hk2
        have hk12 : k1 < k2 := by omega
        have hk2S : k2 < S := by omega
        rcases List.mem_cons.1 h4 with hceq | h5
        · rw [hceq]
          by_cases hk1i : k1 = i
          · refine clauseSat_of_lit
              (l := -(var0 (generate_ualbp_variables T S) i k2))
              (by simp) ?_
            rw [var0_eq hiT hk2S, litSat_neg,
              idModel_x_ne hTS hiT hk2S (by omega)]
            rfl
          · refine clauseSat_of_lit
              (l := -(var0 (generate_ualbp_variables T S) i k1))
              (by simp) ?_
            rw [var0_eq hiT hk1S, litSat_neg,
              idModel_x_ne hTS hiT hk1S hk1i]
            rfl
        · rw [List.mem_singleton.1 h5]
          refine clauseSat_of_lit
            (l := -(var1 (generate_ualbp_variables T S) i k1)) (by simp) ?_
          rw [var1_eq hiT hk1S, litSat_neg, idModel_w hTS hiT hk1S]
          rfl
  rcases List.mem_append.1 hcb with hcp | hcl
  · -- precedence block
    obtain ⟨p, hp, hcp'⟩ := List.mem_flatMap.1 hcp
    obtain ⟨hij, hjT⟩ := hprec p hp
    rcases p with ⟨i, j⟩
    have hiT : i < T := by omega
    rw [List.append_assoc] at hcp'
    rcases List.mem_append.1 hcp' with h1 | h1
    · -- forward pass clauses
      obtain ⟨k, hk, h2⟩ := List.mem_flatMap.1 h1
      obtain ⟨h, hfil, hceq⟩ := List.mem_map.1 h2
      have hkS : k < S := List.mem_range.1 hk
      have hhS : h < S := List.mem_range.1 (List.mem_filter.1 hfil).1
      have hhk : h ≤ k := of_decide_eq_true (List.mem_filter.1 hfil).2
      rw [← hceq]
      by_cases hki : k = i
      · refine clauseSat_of_lit
          (l := -(var0 (generate_ualbp_variables T S) j h)) (by simp) ?_
        rw [var0_eq hjT hhS, litSat_neg,
          idModel_x_ne hTS hjT hhS (by omega)]
        rfl
      · refine clauseSat_of_lit
          (l := -(var0 (generate_ualbp_variables T S) i k)) (by simp) ?_
        rw [var0_eq hiT hkS, litSat_neg, idModel_x_ne hTS hiT hkS hki]
        rfl
    rcases List.mem_append.1 h1 with h2 | h2
    · -- backward pass clauses
      obtain ⟨k, hk, h3⟩ := List.mem_flatMap.1 h2
      obtain ⟨h, hfil, hceq⟩ := List.mem_map.1 h3
      have hkS : k < S := List.mem_range.1 hk
      rw [← hceq]
      refine clauseSat_of_lit
        (l := -(var1 (generate_ualbp_variables T S) i k)) (by simp) ?_
      rw [var1_eq hiT hkS, litSat_neg, idModel_w hTS hiT hkS]
      rfl
    · -- mixed clauses
      obtain ⟨k, hk, h3⟩ := List.mem_flatMap.1 h2
      obtain ⟨h, hh, hceq⟩ := List.mem_map.1 h3
      have hkS : k < S := List.mem_range.1 hk
      rw [← hceq]
      refine clauseSat_of_lit
        (l := -(var1 (generate_ualbp_variables T S) i k)) (by simp) ?_
      rw [var1_eq hiT hkS, litSat_neg, idModel_w hTS hiT hkS]
      rfl
  · -- indicator link block
    obtain ⟨i, hi, h1⟩ := List.mem_flatMap.1 hcl
    obtain ⟨k, hk, h2⟩ := List.mem_flatMap.1 h1
    have hiT : i < T := List.mem_range.1 hi
    have hkS : k < S := List.mem_range.1 hk
    rcases List.mem_cons.1 h2 with hceq | h3
    · rw [hceq]
      by_cases hki : k = i
      · refine clauseSat_of_lit
          (l := var0 (generate_ualbp_variables T S) i k) (by simp) ?_
        rw [var0_eq hiT hkS, litSat_pos _ _ (xVar_pos S i k), hki,
          idModel_x_self hiT]
      · refine clauseSat_of_lit (l := -(yVar T S i k : Int)) (by simp) ?_
        rw [litSat_neg, idModel_y_ne hTS hiT hkS hki]
        rfl
    rcases List.mem_cons.1 h3 with hceq | h4
    · rw [hceq]
      by_cases hki : k = i
      · refine clauseSat_of_lit (l := (yVar T S i k : Int)) (by simp) ?_
        rw [litSat_pos _ _ (yVar_pos T S i k), hki, idModel_y_self hiT]
      · refine clauseSat_of_lit
          (l := -(var0 (generate_ualbp_variables T S) i k)) (by simp) ?_
        rw [var0_eq hiT hkS, litSat_neg, idModel_x_ne hTS hiT hkS hki]
        rfl
    · rw [List.mem_singleton.1 h4]
      refine clauseSat_of_lit
        (l := -(var1 (generate_ualbp_variables T S) i k)) (by simp) ?_
      rw [var1_eq hiT hkS, litSat_neg, idModel_w hTS hiT hkS]
      rfl

/-- Shape of a violation cut: a station in range and a duration-violating
set of tasks (as a sublist of `range numTasks`). -/
def cutPairOK (T S ct : Nat) (tasks : List Nat) (p : Nat × List Nat) : Prop :=
  p.1 < S ∧ List.Sublist p.2 (List.range T) ∧
    ct < ((p.2.map (fun i => tasks.getD i 0)).sum)

/-- The clause represented by a (station, task set) cut pair. -/
def cutsRep (T S : Nat) (ps : List (Nat × List Nat)) : List (List Int) :=
  ps.map (fun p => p.2.map (fun i => -(yVar T S i p.1 : Int)))

lemma cutsRep_append (T S : Nat) (ps qs : List (Nat × List Nat)) :
    cutsRep T S (ps ++ qs) = cutsRep T S ps ++ cutsRep T S qs := by
  rw [cutsRep, cutsRep, cutsRep, List.map_append]

lemma tasks_getD_le {tasks : List Nat} {T ct i : Nat}
    (hlen : tasks.length = T) (hdur : ∀ d ∈ tasks, d ≤ ct) (hi : i < T) :
    tasks.getD i 0 ≤ ct := by
  have hlt : i < tasks.length := by omega
  rw [List.getD_eq_getElem tasks 0 hlt]
  exact hdur _ (List.getElem_mem hlt)

lemma idModel_sat_cut {T S ct : Nat} {tasks : List Nat}
    {p : Nat × List Nat} (hTS : T ≤ S) (hlen : tasks.length = T)
    (hdur : ∀ d ∈ tasks, d ≤ ct) (hOK : cutPairOK T S ct tasks p) :
    clauseSat (idModel T S) (p.2.map (fun i => -(yVar T S i p.1 : Int)))
      = true := by
  obtain ⟨hkS, hsub, hsum⟩ := hOK
  have hall : ∀ i ∈ p.2, i < T := fun i hi =>
    List.mem_range.1 (hsub.subset hi)
  by_cases hex : ∃ i ∈ p.2, i ≠ p.1
  · obtain ⟨i, hi, hne⟩ := hex
    refine clauseSat_of_lit (List.mem_map.2 ⟨i, hi, rfl⟩) ?_
    rw [litSat_neg, idModel_y_ne hTS (hall i hi) hkS (by omega)]
    rfl
  · exfalso
    push_neg at hex
    have hnd : p.2.Nodup := hsub.nodup (List.nodup_range T)
    rcases hp2 : p.2 with _ | ⟨a, rest⟩
    · rw [hp2] at hsum
      simp at hsum
    · rcases rest with _ | ⟨b, rest'⟩
      · have ha : a = p.1 := hex a (by rw [hp2]; simp)
        rw [hp2] at hsum
        have haT : a < T := hall a (by rw [hp2]; simp)
        have := tasks_getD_le hlen hdur haT
        simp only [List.map_cons, List.map_nil, List.sum_cons,
          List.sum_nil] at hsum
        omega
      · have ha : a = p.1 := hex a (by rw [hp2]; simp)
        have hb : b = p.1 := hex b (by rw [hp2]; simp)
        rw [hp2] at hnd
        have := List.nodup_cons.1 hnd
        exact this.1 (by rw [ha, hb]; simp)

lemma cuts_step {T S ct : Nat} {tasks : List Nat} {prec : List (Nat × Nat)}
    {ν : Nat → Bool} {ps : List (Nat × List Nat)}
    (hsat : satClauses ν ((generate_base_clauses T S tasks prec
      (generate_ualbp_variables T S)).1 ++ cutsRep T S ps) = true)
    (hnd : ps.Nodup) (hOK : ∀ p ∈ ps, cutPairOK T S ct tasks p)
    (hviol : check_cycle_time ν T S tasks (yVarsList T S) ct ≠ []) :
    ∃ qs : List (Nat × List Nat),
      cutsRep T S ps ++
          (check_cycle_time ν T S tasks (yVarsList T S) ct).map
            (cutClause (yVarsList T S)) = cutsRep T S (ps ++ qs) ∧
      (ps ++ qs).Nodup ∧ (∀ p ∈ ps ++ qs, cutPairOK T S ct tasks p) ∧
      1 ≤ qs.length := by
  have hcuts : satClauses ν (cutsRep T S ps) = true := by
    rw [satClauses_append] at hsat
    exact (Bool.and_eq_true_iff.1 hsat).2
  refine ⟨(check_cycle_time ν T S tasks (yVarsList T S) ct).map
    (fun v => (v.1, v.2.1)), ?_, ?_, ?_, ?_⟩
  · rw [cutsRep_append]
    congr 1
    rw [cutsRep, List.map_map]
    refine List.map_congr_left ?_
    intro v hv
    obtain ⟨h1, h2, h3, h4⟩ := check_cycle_time_mem hv
    have h2' : v.2.1 = (List.range T).filter (fun i => ν (yVar T S i v.1)) :=
      h2.trans (assigned_filter_yVar h1)
    have hsub : ∀ i ∈ v.2.1, i < T := by
      intro i hi
      rw [h2'] at hi
      exact List.mem_range.1 (List.mem_of_mem_filter hi)
    exact cutClause_eq_yVar h1 hsub
  · refine List.Nodup.append hnd ?_ ?_
    · have hfst : ((check_cycle_time ν T S tasks (yVarsList T S) ct).map
          (fun v => (v.1, v.2.1))).map Prod.fst =
          (check_cycle_time ν T S tasks (yVarsList T S) ct).map
            (fun v => v.1) := by
        rw [List.map_map]
        rfl
      have hnds : (((check_cycle_time ν T S tasks (yVarsList T S) ct).map
          (fun v => (v.1, v.2.1))).map Prod.fst).Nodup := by
        rw [hfst]
        exact (check_cycle_time_stations_sublist ν T S tasks
          (yVarsList T S) ct).nodup (List.nodup_range S)
      exact hnds.of_map Prod.fst
    · intro p hp hpnew
      obtain ⟨v, hv, hveq⟩ := List.mem_map.1 hpnew
      obtain ⟨h1, h2, h3, h4⟩ := check_cycle_time_mem hv
      have h2' : v.2.1 = (List.range T).filter
          (fun i => ν (yVar T S i v.1)) := h2.trans (assigned_filter_yVar h1)
      have hcl : clauseSat ν (p.2.map (fun i => -(yVar T S i p.1 : Int)))
          = true :=
        sat_of_mem hcuts (List.mem_map.2 ⟨p, hp, rfl⟩)
      obtain ⟨l, hl, hls⟩ := List.any_eq_true.1 hcl
      obtain ⟨i, hi, rfl⟩ := List.mem_map.1 hl
      rw [litSat_neg] at hls
      have hyf : ν (yVar T S i p.1) = false := by
        rcases hx : ν (yVar T S i p.1) with _ | _
        · rfl
        · rw [hx] at hls
          exact absurd hls (by simp)
      have hip2 : i ∈ v.2.1 := by
        have : p.2 = v.2.1 := by rw [← hveq]
        rw [← this]
        exact hi
      rw [h2'] at hip2
      have hyt : ν (yVar T S i v.1) = true := by
        have h5 := List.of_mem_filter hip2
        simpa using h5
      have hp1 : p.1 = v.1 := by rw [← hveq]
      rw [hp1] at hyf
      rw [hyf] at hyt
      exact absurd hyt (by simp)
  · intro p hp
    rcases List.mem_append.1 hp with hp | hp
    · exact hOK p hp
    · obtain ⟨v, hv, hveq⟩ := List.mem_map.1 hp
      obtain ⟨h1, h2, h3, h4⟩ := check_cycle_time_mem hv
      have h2' : v.2.1 = (List.range T).filter
          (fun i => ν (yVar T S i v.1)) := h2.trans (assigned_filter_yVar h1)
      refine ⟨by rw [← hveq]; exact h1, ?_, ?_⟩
      · have : p.2 = v.2.1 := by rw [← hveq]
        rw [this, h2']
        exact List.filter_sublist _
      · have hps : p.2 = v.2.1 := by rw [← hveq]
        rw [hps, ← h3]
        exact h4
  · rcases hv : check_cycle_time ν T S tasks (yVarsList T S) ct with _ | _
    · exact absurd hv hviol
    · simp

lemma cutPairs_length_le {T S ct : Nat} {tasks : List Nat}
    {ps : List (Nat × List Nat)} (hnd : ps.Nodup)
    (hOK : ∀ p ∈ ps, cutPairOK T S ct tasks p) :
    ps.length ≤ S * 2 ^ T := by
  classical
  have h1 : ps.length = ps.toFinset.card :=
    (List.toFinset_card_of_nodup hnd).symm
  have h2 : ps.toFinset ⊆
      (Finset.range S) ×ˢ ((List.range T).sublists.toFinset) := by
    intro p hp
    have hp' := List.mem_toFinset.1 hp
    obtain ⟨hk, hsub, _⟩ := hOK p hp'
    exact Finset.mem_product.2 ⟨Finset.mem_range.2 hk,
      List.mem_toFinset.2 (List.mem_sublists.2 hsub)⟩
  have h3 := Finset.card_le_card h2
  rw [Finset.card_product] at h3
  have h4 : ((List.range T).sublists.toFinset).card = 2 ^ T := by
    rw [List.toFinset_card_of_nodup
      (List.nodup_sublists.2 (List.nodup_range T))]
    rw [List.length_sublists, List.length_range]
  rw [Finset.card_range, h4] at h3
  omega

lemma viols_ne_nil_of_isEmpty_false {ν : Nat → Bool} {T S : Nat}
    {tasks : List Nat} {yv : List (List Nat)} {ct : Nat}
    (h : (check_cycle_time ν T S tasks yv ct).isEmpty = false) :
    check_cycle_time ν T S tasks yv ct ≠ [] := by
  rcases hx : check_cycle_time ν T S tasks yv ct with _ | _
  · rw [hx] at h
    exact absurd h (by simp)
  · simp

lemma iterLoop_ne_none {oracle : List (List Int) → Option (Nat → Bool)}
    {T S ct : Nat} {tasks : List Nat} {prec : List (Nat × Nat)}
    (hsound : ∀ cs ν, oracle cs = some ν → satClauses ν cs = true) :
    ∀ (fuel : Nat) (ps : List (Nat × List Nat)), ps.Nodup →
    (∀ p ∈ ps, cutPairOK T S ct tasks p) →
    S * 2 ^ T + 1 ≤ fuel + ps.length →
    iterLoop oracle (generate_base_clauses T S tasks prec
      (generate_ualbp_variables T S)).1 (yVarsList T S) T S tasks
      (generate_ualbp_variables T S) ct fuel (cutsRep T S ps) ≠ none := by
  intro fuel
  induction fuel with
  | zero =>
    intro ps hnd hOK hbound
    exfalso
    have := cutPairs_length_le hnd hOK
    omega
  | succ fuel ih =>
    intro ps hnd hOK hbound
    rcases hor : oracle ((generate_base_clauses T S tasks prec
        (generate_ualbp_variables T S)).1 ++ cutsRep T S ps) with _ | ν
    · have heq : iterLoop oracle (generate_base_clauses T S tasks prec
          (generate_ualbp_variables T S)).1 (yVarsList T S) T S tasks
          (generate_ualbp_variables T S) ct (fuel + 1) (cutsRep T S ps) =
          some none := by
        rw [iterLoop, hor]
      rw [heq]
      simp
    · rcases hvi : (check_cycle_time ν T S tasks (yVarsList T S)
          ct).isEmpty with _ | _
      · obtain ⟨qs, hrep, hnd', hOK', hqs⟩ := cuts_step
          (hsound _ _ hor) hnd hOK (viols_ne_nil_of_isEmpty_false hvi)
        have heq : iterLoop oracle (generate_base_clauses T S tasks prec
            (generate_ualbp_variables T S)).1 (yVarsList T S) T S tasks
            (generate_ualbp_variables T S) ct (fuel + 1) (cutsRep T S ps) =
            iterLoop oracle (generate_base_clauses T S tasks prec
              (generate_ualbp_variables T S)).1 (yVarsList T S) T S tasks
              (generate_ualbp_variables T S) ct fuel
              (cutsRep T S ps ++ (check_cycle_time ν T S tasks
                (yVarsList T S) ct).map (cutClause (yVarsList T S))) := by
          rw [iterLoop, hor]
          simp only [hvi]
          rfl
        rw [heq, hrep]
        exact ih (ps ++ qs) hnd' hOK'
          (by rw [List.length_append]; omega)
      · have heq : iterLoop oracle (generate_base_clauses T S tasks prec
            (generate_ualbp_variables T S)).1 (yVarsList T S) T S tasks
            (generate_ualbp_variables T S) ct (fuel + 1) (cutsRep T S ps) =
            some (some (decodeSolution ν T S
              (generate_ualbp_variables T S))) := by
          rw [iterLoop, hor]
          simp only [hvi]
          rfl
        rw [heq]
        simp

lemma idModel_sat_cuts {T S ct : Nat} {tasks : List Nat}
    {ps : List (Nat × List Nat)} (hTS : T ≤ S) (hlen : tasks.length = T)
    (hdur : ∀ d ∈ tasks, d ≤ ct)
    (hOK : ∀ p ∈ ps, cutPairOK T S ct tasks p) :
    satClauses (idModel T S) (cutsRep T S ps) = true := by
  rw [satClauses, List.all_eq_true]
  intro c hc
  obtain ⟨p, hp, hceq⟩ := List.mem_map.1 hc
  rw [← hceq]
  exact idModel_sat_cut hTS hlen hdur (hOK p hp)

lemma iterLoop_success_at_feasible
    {oracle : List (List Int) → Option (Nat → Bool)}
    {T S ct : Nat} {tasks : List Nat} {prec : List (Nat × Nat)}
    (hsound : ∀ cs ν, oracle cs = some ν → satClauses ν cs = true)
    (hcomp : ∀ cs, oracle cs = none → ∀ ν, satClauses ν cs = false)
    (hTS : T ≤ S) (hlen : tasks.length = T) (hdur : ∀ d ∈ tasks, d ≤ ct)
    (hprec : ∀ p ∈ prec, p.1 < p.2 ∧ p.2 < T) :
    ∀ (fuel : Nat) (ps : List (Nat × List Nat)), ps.Nodup →
    (∀ p ∈ ps, cutPairOK T S ct tasks p) →
    S * 2 ^ T + 1 ≤ fuel + ps.length →
    ∃ sol, iterLoop oracle (generate_base_clauses T S tasks prec
      (generate_ualbp_variables T S)).1 (yVarsList T S) T S tasks
      (generate_ualbp_variables T S) ct fuel (cutsRep T S ps) =
        some (some sol) := by
  intro fuel
  induction fuel with
  | zero =>
    intro ps hnd hOK hbound
    exfalso
    have := cutPairs_length_le hnd hOK
    omega
  | succ fuel ih =>
    intro ps hnd hOK hbound
    rcases hor : oracle ((generate_base_clauses T S tasks prec
        (generate_ualbp_variables T S)).1 ++ cutsRep T S ps) with _ | ν
    · exfalso
      have hid : satClauses (idModel T S)
          ((generate_base_clauses T S tasks prec
            (generate_ualbp_variables T S)).1 ++ cutsRep T S ps) = true := by
        rw [satClauses_append, idModel_sat_base tasks hTS hprec,
          idModel_sat_cuts hTS hlen hdur hOK]
        rfl
      have := hcomp _ hor (idModel T S)
      rw [this] at hid
      exact absurd hid (by simp)
    · rcases hvi : (check_cycle_time ν T S tasks (yVarsList T S)
          ct).isEmpty with _ | _
      · obtain ⟨qs, hrep, hnd', hOK', hqs⟩ := cuts_step
          (hsound _ _ hor) hnd hOK (viols_ne_nil_of_isEmpty_false hvi)
        have heq : iterLoop oracle (generate_base_clauses T S tasks prec
            (generate_ualbp_variables T S)).1 (yVarsList T S) T S tasks
            (generate_ualbp_variables T S) ct (fuel + 1) (cutsRep T S ps) =
            iterLoop oracle (generate_base_clauses T S tasks prec
              (generate_ualbp_variables T S)).1 (yVarsList T S) T S tasks
              (generate_ualbp_variables T S) ct fuel
              (cutsRep T S ps ++ (check_cycle_time ν T S tasks
                (yVarsList T S) ct).map (cutClause (yVarsList T S))) := by
          rw [iterLoop, hor]
          simp only [hvi]
          rfl
        rw [heq, hrep]
        exact ih (ps ++ qs) hnd' hOK'
          (by rw [List.length_append]; omega)
      · refine ⟨decodeSolution ν T S (generate_ualbp_variables T S), ?_⟩
        rw [iterLoop, hor]
        simp only [hvi]
        rfl

lemma solve_ualbp_reaches
    {oracle : List (List Int) → Option (Nat → Bool)}
    {T ct : Nat} {tasks : List Nat} {prec : List (Nat × Nat)}
    (hsound : ∀ cs ν, oracle cs = some ν → satClauses ν cs = true)
    (hcomp : ∀ cs, oracle cs = none → ∀ ν, satClauses ν cs = false)
    (hlen : tasks.length = T) (hdur : ∀ d ∈ tasks, d ≤ ct)
    (hprec : ∀ p ∈ prec, p.1 < p.2 ∧ p.2 < T) :
    ∀ (f S : Nat), 1 ≤ f → T < S + f →
    solve_ualbp oracle f T S tasks prec ct ≠ none := by
  intro f
  induction f with
  | zero =>
    intro S h1 h2
    exact absurd h1 (by omega)
  | succ f ih =>
    intro S h1 h2
    rcases hit : solve_ualbp_iterative oracle (S * 2 ^ T + 1) T S tasks
        prec ct with _ | osol
    · exfalso
      have hne := @iterLoop_ne_none oracle T S ct tasks prec hsound
        (S * 2 ^ T + 1) [] (by simp) (by simp) (by omega)
      rw [solve_ualbp_iterative] at hit
      exact hne hit
    rcases osol with _ | sol
    · by_cases hTS : T ≤ S
      · exfalso
        obtain ⟨sol, hsol⟩ := iterLoop_success_at_feasible hsound hcomp
          hTS hlen hdur hprec (S * 2 ^ T + 1) [] (by simp) (by simp)
          (by omega)
        rw [solve_ualbp_iterative] at hit
        have hcontra : (some none :
            Option (Option (List (List (Nat × Bool))))) = some (some sol) :=
          hit.symm.trans hsol
        exact absurd hcontra (by simp)
      · rw [solve_ualbp, hit]
        show solve_ualbp oracle f T (S + 1) tasks prec ct ≠ none
        exact ih (S + 1) (by omega) (by omega)
    · rw [solve_ualbp, hit]
      simp

/-- C4 (amended): under a sound and complete SAT oracle, if every task's
duration is at most the cycle-time bound, the task list has the declared
length, and every precedence edge (before, after) has `before < after <
numTasks` (topologically indexed, in particular acyclic under forward
orientation), then `solve_ualbp` terminates: outer fuel `numTasks + 1`
(stations incremented by 1 per retry from the caller's lower bound) already
suffices, because station count `numTasks` is structurally feasible with one
task per station. -/
theorem station_search_terminates_on_acyclic_instances
    (oracle : List (List Int) → Option (Nat → Bool))
    (T lb ct : Nat) (tasks : List Nat) (prec : List (Nat × Nat))
    (hsound : ∀ cs ν, oracle cs = some ν → satClauses ν cs = true)
    (hcomp : ∀ cs, oracle cs = none → ∀ ν, satClauses ν cs = false)
    (hlen : tasks.length = T) (hdur : ∀ d ∈ tasks, d ≤ ct)
    (hprec : ∀ p ∈ prec, p.1 < p.2 ∧ p.2 < T) :
    solve_ualbp oracle (T + 1) T lb tasks prec ct ≠ none :=
  solve_ualbp_reaches hsound hcomp hlen hdur hprec (T + 1) lb (by omega)
    (by omega)

/-- C4 witness: the brute-force oracle on a single unit-duration task with
lower bound 1 and cycle time 1; the search terminates within the stated
fuel. -/
theorem station_search_terminates_on_acyclic_instances_witness :
    solve_ualbp bruteOracle (1 + 1) 1 1 [1] [] 1 ≠ none :=
  station_search_terminates_on_acyclic_instances bruteOracle 1 1 1 [1] []
    bruteOracle_sound bruteOracle_complete (by decide) (by decide)
    (by decide)

lemma cyclic_unsat (S : Nat) (ν : Nat → Bool) :
    satClauses ν (generate_base_clauses 2 S [1, 1] [(0, 1), (1, 0)]
      (generate_ualbp_variables 2 S)).1 = false := by
  rcases hx : satClauses ν (generate_base_clauses 2 S [1, 1]
      [(0, 1), (1, 0)] (generate_ualbp_variables 2 S)).1 with _ | _
  · rfl
  · exfalso
    have h01 : ((0 : Nat), (1 : Nat)) ∈ [((0 : Nat), (1 : Nat)), (1, 0)] :=
      by simp
    have h10 : ((1 : Nat), (0 : Nat)) ∈ [((0 : Nat), (1 : Nat)), (1, 0)] :=
      by simp
    obtain ⟨k, hk, hc0⟩ := sat_alo hx (show 0 < 2 by omega)
    obtain ⟨h, hh, hc1⟩ := sat_alo hx (show 1 < 2 by omega)
    rcases hc0 with hx0 | hw0
    · rcases hc1 with hx1 | hw1
      · by_cases hkh : h ≤ k
        · rcases sat_fwd hx h01 (by omega) (by omega) hk hh hkh with hf | hf
          · rw [hx0] at hf; exact absurd hf (by simp)
          · rw [hx1] at hf; exact absurd hf (by simp)
        · rcases sat_fwd hx h10 (by omega) (by omega) hh hk (by omega)
            with hf | hf
          · rw [hx1] at hf; exact absurd hf (by simp)
          · rw [hx0] at hf; exact absurd hf (by simp)
      · rcases sat_mixed hx h10 (by omega) (by omega) hh hk with hf | hf
        · rw [hw1] at hf; exact absurd hf (by simp)
        · rw [hx0] at hf; exact absurd hf (by simp)
    · rcases hc1 with hx1 | hw1
      · rcases sat_mixed hx h01 (by omega) (by omega) hk hh with hf | hf
        · rw [hw0] at hf; exact absurd hf (by simp)
        · rw [hx1] at hf; exact absurd hf (by simp)
      · by_cases hkh : k ≤ h
        · rcases sat_bwd hx h01 (by omega) (by omega) hk hh hkh with hf | hf
          · rw [hw0] at hf; exact absurd hf (by simp)
          · rw [hw1] at hf; exact absurd hf (by simp)
        · rcases sat_bwd hx h10 (by omega) (by omega) hh hk (by omega)
            with hf | hf
          · rw [hw1] at hf; exact absurd hf (by simp)
          · rw [hw0] at hf; exact absurd hf (by simp)

lemma solve_ualbp_cyclic_none :
    ∀ (f S : Nat),
      solve_ualbp bruteOracle f 2 S [1, 1] [(0, 1), (1, 0)] 1 = none
  | 0, S => by rw [solve_ualbp]
  | f + 1, S => by
    have hun : bruteOracle ((generate_base_clauses 2 S [1, 1]
        [(0, 1), (1, 0)] (generate_ualbp_variables 2 S)).1 ++ []) =
        none := by
      rcases hb : bruteOracle ((generate_base_clauses 2 S [1, 1]
          [(0, 1), (1, 0)] (generate_ualbp_variables 2 S)).1 ++ []) with _ | ν
      · rfl
      · exfalso
        have hs := bruteOracle_sound _ _ hb
        rw [List.append_nil] at hs
        have hu := cyclic_unsat S ν
        rw [hs] at hu
        exact absurd hu (by simp)
    have hit : solve_ualbp_iterative bruteOracle (S * 2 ^ 2 + 1) 2 S
        [1, 1] [(0, 1), (1, 0)] 1 = some none := by
      rw [solve_ualbp_iterative, iterLoop, hun]
    rw [solve_ualbp, hit]
    show solve_ualbp bruteOracle f 2 (S + 1) [1, 1] [(0, 1), (1, 0)] 1 = none
    exact solve_ualbp_cyclic_none f (S + 1)

/-- C4 counterexample: the claim as stated is false - with the cyclically
precedence-constrained instance tasks = [1, 1], edges (0,1) and (1,0) and
cycle time 1, every individual duration is within the bound, yet
`solve_ualbp` (run with the sound and complete brute-force oracle) returns
no result at ANY fuel: the base clauses are unsatisfiable at every station
count, so the outer search increments forever. -/
theorem station_search_diverges_on_cyclic_precedence :
    [1, 1].all (fun d => decide (d ≤ 1)) = true ∧
    ¬ solveTerminates bruteOracle 2 1 [1, 1] [(0, 1), (1, 0)] 1 := by
  refine ⟨by decide, ?_⟩
  rintro ⟨f, hf⟩
  exact hf (solve_ualbp_cyclic_none f 1)

lemma natAbs_neg_natCast (a : Nat) : (-(a : Int)).natAbs = a := by
  simp

lemma natAbs_natCast' (a : Nat) : ((a : Int)).natAbs = a := by
  simp

lemma base_pb_var_bounds {T S : Nat} {tasks : List Nat}
    {prec : List (Nat × Nat)} (hprec : ∀ p ∈ prec, p.1 < T ∧ p.2 < T) :
    ∀ c ∈ generate_base_clauses_pb T S tasks prec
      (generate_ualbp_variables T S), ∀ l ∈ c,
      1 ≤ l.natAbs ∧ l.natAbs ≤ T * S * 2 := by
  intro c hc l hl
  rw [generate_base_clauses_pb] at hc
  rcases List.mem_append.1 hc with hca | hcp
  · obtain ⟨i, hi, hci⟩ := List.mem_flatMap.1 hca
    have hiT : i < T := List.mem_range.1 hi
    rw [List.append_assoc] at hci
    rcases List.mem_append.1 hci with h1 | h1
    · rw [List.mem_singleton.1 h1] at hl
      rcases List.mem_append.1 hl with h2 | h2
      · obtain ⟨k, hk, hleq⟩ := List.mem_map.1 h2
        have hkS := List.mem_range.1 hk
        rw [← hleq, var0_eq hiT hkS, natAbs_natCast']
        exact ⟨xVar_pos S i k, xVar_le hiT hkS⟩
      · obtain ⟨k, hk, hleq⟩ := List.mem_map.1 h2
        have hkS := List.mem_range.1 hk
        rw [← hleq, var1_eq hiT hkS, natAbs_natCast']
        exact ⟨wVar_pos S i k, wVar_le hiT hkS⟩
    rcases List.mem_append.1 h1 with h2 | h2
    · obtain ⟨k, hk, hceq⟩ := List.mem_map.1 h2
      have hkS := List.mem_range.1 hk
      rw [← hceq] at hl
      rcases List.mem_cons.1 hl with rfl | hl2
      · rw [var0_eq hiT hkS, natAbs_neg_natCast]
        exact ⟨xVar_pos S i k, xVar_le hiT hkS⟩
      · rw [List.mem_singleton.1 hl2, var1_eq hiT hkS, natAbs_neg_natCast]
        exact ⟨wVar_pos S i k, wVar_le hiT hkS⟩
    · obtain ⟨k1, hk1, h3⟩ := List.mem_flatMap.1 h2
      obtain ⟨k2, hk2, h4⟩ := List.mem_flatMap.1 h3
      have hk1S : k1 < S := List.mem_range.1 hk1
      have hk2r := List.mem_range'_1.1 hk2
      have hk2S : k2 < S := by omega
      rcases List.mem_cons.1 h4 with hceq | h5
      · rw [hceq] at hl
        rcases List.mem_cons.1 hl with rfl | hl2
        · rw [var0_eq hiT hk1S, natAbs_neg_natCast]
          exact ⟨xVar_pos S i k1, xVar_le hiT hk1S⟩
        · rw [List.mem_singleton.1 hl2, var0_eq hiT hk2S, natAbs_neg_natCast]
          exact ⟨xVar_pos S i k2, xVar_le hiT hk2S⟩
      · rw [List.mem_singleton.1 h5] at hl
        rcases List.mem_cons.1 hl with rfl | hl2
        · rw [var1_eq hiT hk1S, natAbs_neg_natCast]
          exact ⟨wVar_pos S i k1, wVar_le hiT hk1S⟩
        · rw [List.mem_singleton.1 hl2, var1_eq hiT hk2S, natAbs_neg_natCast]
          exact ⟨wVar_pos S i k2, wVar_le hiT hk2S⟩
  · obtain ⟨p, hp, hcp'⟩ := List.mem_flatMap.1 hcp
    obtain ⟨hpT1, hpT2⟩ := hprec p hp
    rw [List.append_assoc] at hcp'
    rcases List.mem_append.1 hcp' with h1 | h1
    · obtain ⟨k, hk, h2⟩ := List.mem_flatMap.1 h1
      obtain ⟨h, hfil, hceq⟩ := List.mem_map.1 h2
      have hkS : k < S := List.mem_range.1 hk
      have hhS : h < S := List.mem_range.1 (List.mem_filter.1 hfil).1
      rw [← hceq] at hl
      rcases List.mem_cons.1 hl with rfl | hl2
      · rw [var0_eq hpT1 hkS, natAbs_neg_natCast]
        exact ⟨xVar_pos S p.1 k, xVar_le hpT1 hkS⟩
      · rw [List.mem_singleton.1 hl2, var0_eq hpT2 hhS, natAbs_neg_natCast]
        exact ⟨xVar_pos S p.2 h, xVar_le hpT2 hhS⟩
    rcases List.mem_append.1 h1 with h2 | h2
    · obtain ⟨k, hk, h3⟩ := List.mem_flatMap.1 h2
      obtain ⟨h, hfil, hceq⟩ := List.mem_map.1 h3
      have hkS : k < S := List.mem_range.1 hk
      have hhS : h < S := List.mem_range.1 (List.mem_filter.1 hfil).1
      rw [← hceq] at hl
      rcases List.mem_cons.1 hl with rfl | hl2
      · rw [var1_eq hpT1 hkS, natAbs_neg_natCast]
        exact ⟨wVar_pos S p.1 k, wVar_le hpT1 hkS⟩
      · rw [List.mem_singleton.1 hl2, var1_eq hpT2 hhS, natAbs_neg_natCast]
        exact ⟨wVar_pos S p.2 h, wVar_le hpT2 hhS⟩
    · obtain ⟨k, hk, h3⟩ := List.mem_flatMap.1 h2
      obtain ⟨h, hh, hceq⟩ := List.mem_map.1 h3
      have hkS : k < S := List.mem_range.1 hk
      have hhS : h < S := List.mem_range.1 hh
      rw [← hceq] at hl
      rcases List.mem_cons.1 hl with rfl | hl2
      · rw [var1_eq hpT1 hkS, natAbs_neg_natCast]
        exact ⟨wVar_pos S p.1 k, wVar_le hpT1 hkS⟩
      · rw [List.mem_singleton.1 hl2, var0_eq hpT2 hhS, natAbs_neg_natCast]
        exact ⟨xVar_pos S p.2 h, xVar_le hpT2 hhS⟩

lemma stationLits_var_bounds {T S s : Nat} (hs : s < S) :
    ∀ l ∈ stationLits T S s (generate_ualbp_variables T S),
      1 ≤ l.natAbs ∧ l.natAbs ≤ T * S * 2 := by
  intro l hl
  rw [stationLits] at hl
  obtain ⟨i, hi, hli⟩ := List.mem_flatMap.1 hl
  have hiT : i < T := List.mem_range.1 hi
  rcases List.mem_cons.1 hli with rfl | hl2
  · rw [var0_eq hiT hs, natAbs_natCast']
    exact ⟨xVar_pos S i s, xVar_le hiT hs⟩
  · rw [List.mem_singleton.1 hl2, var1_eq hiT hs, natAbs_natCast']
    exact ⟨wVar_pos S i s, wVar_le hiT hs⟩

/-- The `local_max` computed for one station entry: the largest variable id
occurring in its returned clauses, floored at the `top_id` it received. -/
def entryMax (e : Nat × List (List Int)) : Nat :=
  e.2.foldl (fun m c => max m (clauseMaxVar c)) e.1

lemma foldl_max_init_le :
    ∀ (cls : List (List Int)) (nv : Nat),
      nv ≤ cls.foldl (fun m c => max m (clauseMaxVar c)) nv
  | [], _ => Nat.le_refl _
  | c :: cls, nv =>
    Nat.le_trans (Nat.le_max_left nv (clauseMaxVar c))
      (foldl_max_init_le cls _)

lemma foldl_max_mem_le :
    ∀ (cls : List (List Int)) (nv : Nat) (c : List Int), c ∈ cls →
      clauseMaxVar c ≤ cls.foldl (fun m c => max m (clauseMaxVar c)) nv
  | c' :: cls, nv, c, h => by
    rcases List.mem_cons.1 h with rfl | h'
    · exact Nat.le_trans (Nat.le_max_right nv (clauseMaxVar c))
        (foldl_max_init_le cls _)
    · exact foldl_max_mem_le cls _ c h'

lemma pbStationRun_spec
    {pbenc : List Int → List Nat → Nat → Nat → List (List Int)}
    {T S : Nat} {tasks : List Nat} {ct : Nat}
    (hpb : ∀ ls ws b t, ∀ c ∈ pbenc ls ws b t, ∀ l ∈ c,
      l ≠ 0 ∧ (l.natAbs ∈ ls.map Int.natAbs ∨ t < l.natAbs)) :
    ∀ (stations : List Nat) (nv : Nat), (∀ s ∈ stations, s < S) →
    T * S * 2 ≤ nv →
    nv ≤ (pbStationRun pbenc T S tasks
      (generate_ualbp_variables T S) ct stations nv).2 ∧
    (∀ e ∈ (pbStationRun pbenc T S tasks
        (generate_ualbp_variables T S) ct stations nv).1,
      nv ≤ e.1 ∧ entryMax e < (pbStationRun pbenc T S tasks
        (generate_ualbp_variables T S) ct stations nv).2 ∧
      ∀ c ∈ e.2, ∀ l ∈ c, 1 ≤ l.natAbs ∧
        (l.natAbs ≤ T * S * 2 ∨
          (e.1 < l.natAbs ∧ l.natAbs ≤ entryMax e))) ∧
    List.Pairwise (fun e e' => entryMax e < e'.1)
      (pbStationRun pbenc T S tasks
        (generate_ualbp_variables T S) ct stations nv).1 := by
  intro stations
  induction stations with
  | nil =>
    intro nv hS hnv
    refine ⟨Nat.le_refl _, ?_, ?_⟩
    · intro e he
      exact absurd he (by simp [pbStationRun])
    · simp [pbStationRun]
  | cons s rest ih =>
    intro nv hS hnv
    have hsS : s < S := hS s (by simp)
    have hrest : ∀ x ∈ rest, x < S := fun x hx => hS x (by simp [hx])
    rw [pbStationRun]
    set cls := pbenc (stationLits T S s (generate_ualbp_variables T S))
      (stationWeights T tasks) ct nv with hcls
    set lm := cls.foldl (fun m c => max m (clauseMaxVar c)) nv with hlm
    have hnvlm : nv ≤ lm := foldl_max_init_le cls nv
    have hrec := ih (lm + 1) hrest (by omega)
    obtain ⟨hr1, hr2, hr3⟩ := hrec
    have hclsb : ∀ c ∈ cls, ∀ l ∈ c, 1 ≤ l.natAbs ∧
        (l.natAbs ≤ T * S * 2 ∨ (nv < l.natAbs ∧ l.natAbs ≤ lm)) := by
      intro c hc l hl
      obtain ⟨hne, hor⟩ := hpb _ _ _ _ c (by rw [hcls] at hc; exact hc) l hl
      refine ⟨Int.natAbs_pos.2 hne, ?_⟩
      rcases hor with hin | hgt
      · obtain ⟨l', hl', heq⟩ := List.mem_map.1 hin
        left
        rw [← heq]
        exact (stationLits_var_bounds hsS l' hl').2
      · right
        refine ⟨hgt, ?_⟩
        exact Nat.le_trans (le_clauseMaxVar hl) (foldl_max_mem_le cls nv c hc)
    refine ⟨by omega, ?_, ?_⟩
    · intro e he
      rcases List.mem_cons.1 he with rfl | he'
      · refine ⟨Nat.le_refl _, ?_, hclsb⟩
        have : entryMax (nv, cls) = lm := rfl
        rw [this]
        omega
      · obtain ⟨ha, hb, hc2⟩ := hr2 e he'
        exact ⟨by omega, hb, fun c hc l hl => by
          obtain ⟨h1, h2⟩ := hc2 c hc l hl
          refine ⟨h1, ?_⟩
          rcases h2 with h2 | h2
          · exact Or.inl h2
          · exact Or.inr h2⟩
    · rw [List.pairwise_cons]
      refine ⟨?_, hr3⟩
      intro e' he'
      have := (hr2 e' he').1
      have hlmEq : entryMax (nv, cls) = lm := rfl
      rw [hlmEq]
      omega

/-- C7: watermark discipline of the pseudo-boolean variant. All base-clause
literals use ids in `[1, numTasks*numStations*2]` (the initial watermark
`next_var`); every station entry of the per-station encoding loop receives a
`top_id` at least the initial watermark (and, by the pairwise clause, larger
than every id used by any earlier station's clauses); every literal of every
clause returned for a station has an id in `[1, final watermark)` and is
either a primary id or a fresh auxiliary id lying strictly above that
station's `top_id` and at most its `local_max`, so auxiliary blocks of
distinct stations never collide with the primary ids or with each other. -/
theorem pb_watermark_discipline
    (pbenc : List Int → List Nat → Nat → Nat → List (List Int))
    (T S ct : Nat) (tasks : List Nat) (prec : List (Nat × Nat))
    (hpb : ∀ ls ws b t, ∀ c ∈ pbenc ls ws b t, ∀ l ∈ c,
      l ≠ 0 ∧ (l.natAbs ∈ ls.map Int.natAbs ∨ t < l.natAbs))
    (hprec : ∀ p ∈ prec, p.1 < T ∧ p.2 < T) :
    (∀ c ∈ generate_base_clauses_pb T S tasks prec
      (generate_ualbp_variables T S), ∀ l ∈ c,
      1 ≤ l.natAbs ∧ l.natAbs ≤ T * S * 2) ∧
    (∀ e ∈ (pbRun pbenc T S tasks
        (generate_ualbp_variables T S) ct).1,
      T * S * 2 ≤ e.1 ∧
      entryMax e < (pbRun pbenc T S tasks
        (generate_ualbp_variables T S) ct).2 ∧
      ∀ c ∈ e.2, ∀ l ∈ c, 1 ≤ l.natAbs ∧
        l.natAbs < (pbRun pbenc T S tasks
          (generate_ualbp_variables T S) ct).2 ∧
        (l.natAbs ≤ T * S * 2 ∨
          (e.1 < l.natAbs ∧ l.natAbs ≤ entryMax e))) ∧
    List.Pairwise (fun e e' => entryMax e < e'.1)
      (pbRun pbenc T S tasks (generate_ualbp_variables T S) ct).1 := by
  rw [pbRun]
  have hspec := @pbStationRun_spec pbenc T S tasks ct hpb (List.range S)
    (T * S * 2) (fun s hs => List.mem_range.1 hs) (Nat.le_refl _)
  obtain ⟨h1, h2, h3⟩ := hspec
  refine ⟨base_pb_var_bounds hprec, ?_, h3⟩
  intro e he
  obtain ⟨ha, hb, hc⟩ := h2 e he
  refine ⟨ha, hb, ?_⟩
  intro c hcc l hl
  obtain ⟨hl1, hl2⟩ := hc c hcc l hl
  refine ⟨hl1, ?_, hl2⟩
  have hee : e.1 ≤ entryMax e := foldl_max_init_le e.2 e.1
  rcases hl2 with hl2 | hl2
  · omega
  · omega

/-- C7 witness: the discipline instantiated with an encoder that returns no
clauses, on a one-task one-station instance. -/
theorem pb_watermark_discipline_witness :
    (∀ c ∈ generate_base_clauses_pb 1 1 [1] []
      (generate_ualbp_variables 1 1), ∀ l ∈ c,
      1 ≤ l.natAbs ∧ l.natAbs ≤ 1 * 1 * 2) ∧
    (∀ e ∈ (pbRun (fun _ _ _ _ => []) 1 1 [1]
        (generate_ualbp_variables 1 1) 1).1,
      1 * 1 * 2 ≤ e.1 ∧
      entryMax e < (pbRun (fun _ _ _ _ => []) 1 1 [1]
        (generate_ualbp_variables 1 1) 1).2 ∧
      ∀ c ∈ e.2, ∀ l ∈ c, 1 ≤ l.natAbs ∧
        l.natAbs < (pbRun (fun _ _ _ _ => []) 1 1 [1]
          (generate_ualbp_variables 1 1) 1).2 ∧
        (l.natAbs ≤ 1 * 1 * 2 ∨
          (e.1 < l.natAbs ∧ l.natAbs ≤ entryMax e))) ∧
    List.Pairwise (fun e e' => entryMax e < e'.1)
      (pbRun (fun _ _ _ _ => []) 1 1 [1]
        (generate_ualbp_variables 1 1) 1).1 :=
  pb_watermark_discipline (fun _ _ _ _ => []) 1 1 1 [1] []
    (fun ls ws b t c hc => absurd hc (List.not_mem_nil c))
    (fun p hp => absurd hp (List.not_mem_nil p))

lemma dropLast_cons_of_ne_nil {α : Type} (a : α) {l : List α}
    (h : l ≠ []) : (a :: l).dropLast = a :: l.dropLast := by
  rcases l with _ | ⟨b, l'⟩
  · exact absurd rfl h
  · rfl

lemma subsetEnum_mem (bound : Nat) :
    ∀ (pending : List (Nat × Nat)) (current : List Nat) (total : Nat),
      total ≤ bound →
      ∀ A, A ∈ subsetEnum bound pending current total ↔
        ∃ ps, List.Sublist ps pending ∧ ps ≠ [] ∧
          A = current ++ ps.map Prod.fst ∧
          bound < total + (ps.map Prod.snd).sum ∧
          total + ((ps.dropLast).map Prod.snd).sum ≤ bound := by
  intro pending
  induction pending with
  | nil =>
    intro current total htot A
    rw [subsetEnum]
    constructor
    · intro h
      exact absurd h (List.not_mem_nil A)
    · rintro ⟨ps, hsub, hne, _, _, _⟩
      exact absurd (List.sublist_nil.1 hsub) hne
  | cons pd rest ih =>
    rcases pd with ⟨i, d⟩
    intro current total htot A
    rw [subsetEnum]
    by_cases hcond : bound < total + d
    · rw [if_pos hcond]
      constructor
      · intro hA
        rcases List.mem_append.1 hA with h | h
        · refine ⟨[(i, d)], (List.nil_sublist rest).cons₂ (i, d), by simp,
            by simpa using List.mem_singleton.1 h, by simpa using hcond,
            by simpa using htot⟩
        · obtain ⟨ps, hsub, hne, hAeq, hgt, hle⟩ :=
            (ih current total htot A).1 h
          exact ⟨ps, hsub.cons _, hne, hAeq, hgt, hle⟩
      · rintro ⟨ps, hsub, hne, hAeq, hgt, hle⟩
        cases hsub with
        | cons a h =>
          exact List.mem_append_right _
            ((ih current total htot A).2 ⟨ps, h, hne, hAeq, hgt, hle⟩)
        | cons₂ a h =>
          rename_i ps'
          rcases hps' : ps' with _ | ⟨q, qs⟩
          · refine List.mem_append_left _ (List.mem_singleton.2 ?_)
            rw [hAeq, hps']
            simp
          · exfalso
            rw [hps'] at hle
            rw [dropLast_cons_of_ne_nil _ (by simp)] at hle
            simp only [List.map_cons, List.sum_cons] at hle
            omega
    · rw [if_neg hcond]
      constructor
      · intro hA
        rcases List.mem_append.1 hA with h | h
        · obtain ⟨ps', hsub, hne, hAeq, hgt, hle⟩ :=
            (ih (current ++ [i]) (total + d) (by omega) A).1 h
          refine ⟨(i, d) :: ps', hsub.cons₂ _, by simp, ?_, ?_, ?_⟩
          · rw [hAeq, List.append_assoc]
            rfl
          · simp only [List.map_cons, List.sum_cons]
            omega
          · rw [dropLast_cons_of_ne_nil _ hne]
            simp only [List.map_cons, List.sum_cons]
            omega
        · obtain ⟨ps, hsub, hne, hAeq, hgt, hle⟩ :=
            (ih current total htot A).1 h
          exact ⟨ps, hsub.cons _, hne, hAeq, hgt, hle⟩
      · rintro ⟨ps, hsub, hne, hAeq, hgt, hle⟩
        cases hsub with
        | cons a h =>
          exact List.mem_append_right _
            ((ih current total htot A).2 ⟨ps, h, hne, hAeq, hgt, hle⟩)
        | cons₂ a h =>
          rename_i ps'
          rcases hps' : ps' with _ | ⟨q, qs⟩
          · exfalso
            rw [hps'] at hgt
            simp only [List.map_cons, List.map_nil, List.sum_cons,
              List.sum_nil] at hgt
            omega
          · refine List.mem_append_left _
              (((ih (current ++ [i]) (total + d) (by omega) A)).2
                ⟨ps', by rw [hps'] at h; rw [hps']; exact h, by rw [hps']; simp,
                  ?_, ?_, ?_⟩)
            · rw [hAeq, List.append_assoc]
              rfl
            · simp only [List.map_cons, List.sum_cons] at hgt
              omega
            · rw [dropLast_cons_of_ne_nil _ (by rw [hps']; simp)] at hle
              simp only [List.map_cons, List.sum_cons] at hle
              omega

/-- C8 (modelled from the spec, strategy 1 of section 4.4): the clauses the
exhaustive subset-cut strategy emits for station `k` are exactly one clause
per minimal violating subset - a nonempty subset of tasks taken in
nondecreasing index order (a sublist of the indexed task list) whose total
duration first exceeds the bound at its last element (total > bound but the
subset without its last element is within the bound), the clause being the
disjunction of the negated assigned-here indicators of exactly that
subset. -/
theorem exhaustive_subset_cut_strategy (T S : Nat) (tasks : List Nat)
    (bound k : Nat) (c : List Int) :
    c ∈ exhaustiveStationCuts T S tasks bound k ↔
      ∃ ps, List.Sublist ps tasks.enum ∧ ps ≠ [] ∧
        bound < (ps.map Prod.snd).sum ∧
        ((ps.dropLast).map Prod.snd).sum ≤ bound ∧
        c = (ps.map Prod.fst).map (fun i => -(yVar T S i k : Int)) := by
  rw [exhaustiveStationCuts]
  constructor
  · intro hc
    obtain ⟨A, hA, hceq⟩ := List.mem_map.1 hc
    obtain ⟨ps, hsub, hne, hAeq, hgt, hle⟩ :=
      (subsetEnum_mem bound tasks.enum [] 0 (by omega) A).1 hA
    refine ⟨ps, hsub, hne, by omega, by omega, ?_⟩
    rw [← hceq, hAeq]
    simp
  · rintro ⟨ps, hsub, hne, hgt, hle, hceq⟩
    refine List.mem_map.2 ⟨ps.map Prod.fst, ?_, hceq.symm⟩
    exact (subsetEnum_mem bound tasks.enum [] 0 (by omega)
      (ps.map Prod.fst)).2 ⟨ps, hsub, hne, by simp, by omega, by omega⟩

/-- A malformed edge line occurs in the edge section before any sentinel:
scanning the lines in order, some line fails to parse as `"i,j"` before a
`-1,-1` sentinel line is reached. -/
def edgeSectionBad : List String → Bool
  | [] => false
  | line :: rest =>
    match parseEdge line with
    | none => true
    | some (i, j) => if i = -1 ∧ j = -1 then false else edgeSectionBad rest

lemma readEdges_error_of_bad :
    ∀ (ls : List String), edgeSectionBad ls = true →
      ∃ e, readEdges ls = Except.error e := by
  intro ls
  induction ls with
  | nil => intro h; exact absurd h (by rw [edgeSectionBad]; simp)
  | cons line rest ih =>
    intro h
    rw [edgeSectionBad] at h
    rw [readEdges]
    rcases hpe : parseEdge line with _ | p
    · exact ⟨"ValueError", rfl⟩
    · rcases p with ⟨i, j⟩
      rw [hpe] at h
      have h' : (if i = -1 ∧ j = -1 then false else edgeSectionBad rest) =
          true := h
      by_cases hs : i = -1 ∧ j = -1
      · rw [if_pos hs] at h'
        exact absurd h' (by simp)
      · rw [if_neg hs] at h'
        obtain ⟨e, he⟩ := ih h'
        refine ⟨e, ?_⟩
        show (if i = -1 ∧ j = -1 then Except.ok [] else
          Except.map (fun ps => (i - 1, j - 1) :: ps) (readEdges rest)) =
            Except.error e
        rw [if_neg hs, he]
        rfl

lemma readDurationsAux_error_of_bad {lines : List String} :
    ∀ (is : List Nat), (∃ i ∈ is, ((lines.get? (i + 1)).bind pyInt) = none) →
      ∃ e, readDurationsAux lines is = Except.error e := by
  intro is
  induction is with
  | nil =>
    rintro ⟨i, hi, _⟩
    exact absurd hi (List.not_mem_nil i)
  | cons j is ih =>
    rintro ⟨i, hi, hbad⟩
    rw [readDurationsAux]
    rcases hg : lines.get? (j + 1) with _ | s
    · exact ⟨"IndexError", rfl⟩
    · show ∃ e, (match pyInt s with
        | none => Except.error "ValueError"
        | some d => (readDurationsAux lines is).map (fun ds => d :: ds)) =
          Except.error e
      rcases hpi : pyInt s with _ | d
      · exact ⟨"ValueError", rfl⟩
      · rcases List.mem_cons.1 hi with rfl | hi'
        · exfalso
          rw [hg, Option.bind, hpi] at hbad
          exact absurd hbad (by simp)
        · obtain ⟨e, he⟩ := ih ⟨i, hi', hbad⟩
          refine ⟨e, ?_⟩
          show (readDurationsAux lines is).map (fun ds => d :: ds) =
            Except.error e
          rw [he]
          rfl

lemma readDurations_error_of_bad {lines : List String} {n i : Nat}
    (hi : i < n) (hbad : ((lines.get? (i + 1)).bind pyInt) = none) :
    ∃ e, readDurations lines n = Except.error e := by
  rw [readDurations]
  exact readDurationsAux_error_of_bad (List.range n)
    ⟨i, List.mem_range.2 hi, hbad⟩

/-- C9 (amended): a non-numeric (or missing) duration line, or a malformed
edge line occurring before any sentinel, makes `read_ualbp_file` raise a
parse error, and batch processing (`process_instances`) catches the error,
skips that row and continues with the remaining rows unchanged.  (A file
that merely lacks the `-1,-1` sentinel is NOT an error: the edge loop just
runs off the end of the file - see the counterexample theorem.) -/
theorem malformed_instance_file_raises_and_batch_skips
    (lines : List String) (l0 : String) (nI lbI ctI : Int)
    (iname ct_str : String) (fs : String → Option (List String))
    (solveInst : Nat → Nat → List Int → List (Int × Int) → Nat → Nat)
    (row : BatchRow) (rest : List BatchRow)
    (hhead : lines.head? = some l0) (hn : pyInt l0 = some nI)
    (hbad : (∃ i, i < nI.toNat ∧ ((lines.get? (i + 1)).bind pyInt) = none) ∨
      edgeSectionBad (lines.drop (nI.toNat + 1)) = true)
    (hlb : (if pyStrip row.lb = "NA" then some 1 else pyInt row.lb) =
      some lbI)
    (hsplit : pyRsplit1 (pyStrip row.name) = [iname, ct_str])
    (hct : pyInt ct_str = some ctI)
    (hfs : fs ("dataset/" ++ iname) = some lines) :
    (∃ e, read_ualbp_file lines = Except.error e) ∧
    processRows fs solveInst (row :: rest) = processRows fs solveInst rest := by
  have herr : ∃ e, read_ualbp_file lines = Except.error e := by
    rcases hrd : readDurations lines nI.toNat with e | ds
    · refine ⟨e, ?_⟩
      simp only [read_ualbp_file, hhead, hn, hrd]
    · rcases hbad with ⟨i, hi, hbad⟩ | hbad
      · obtain ⟨e, he⟩ := readDurations_error_of_bad hi hbad
        rw [he] at hrd
        exact absurd hrd (by simp)
      · obtain ⟨e, he⟩ := readEdges_error_of_bad _ hbad
        refine ⟨e, ?_⟩
        simp only [read_ualbp_file, hhead, hn, hrd, he]
  refine ⟨herr, ?_⟩
  obtain ⟨e, he⟩ := herr
  simp only [processRows, hlb, hsplit, hct, hfs, he]

/-- C9 counterexample: the claim as stated is false for the missing-sentinel
case - a file whose edge section simply ends without the `-1,-1` line parses
successfully (the loop runs off the end), it does not raise. -/
theorem read_file_missing_sentinel_succeeds :
    read_ualbp_file ["1", "5", "1,1"] = Except.ok (1, [5], [(0, 0)]) := by
  rfl

/-- C9 witness: a file whose second line is the non-numeric duration `"x"`
makes reading fail, and the batch row naming it is skipped while the
remaining rows are processed. -/
theorem malformed_instance_file_raises_and_batch_skips_witness :
    (∃ e, read_ualbp_file ["1", "x", "-1,-1"] = Except.error e) ∧
    processRows
      (fun p => if p = "dataset/instA" then some ["1", "x", "-1,-1"]
        else none)
      (fun _ _ _ _ _ => 0) ({ name := "instA-5", lb := "1" } :: []) =
    processRows
      (fun p => if p = "dataset/instA" then some ["1", "x", "-1,-1"]
        else none)
      (fun _ _ _ _ _ => 0) [] :=
  malformed_instance_file_raises_and_batch_skips ["1", "x", "-1,-1"] "1"
    1 1 5 "instA" "5"
    (fun p => if p = "dataset/instA" then some ["1", "x", "-1,-1"] else none)
    (fun _ _ _ _ _ => 0) { name := "instA-5", lb := "1" } []
    (by rfl) (by rfl) (Or.inl ⟨0, by decide, by rfl⟩) (by rfl)
    (by rfl) (by rfl) (by rfl)
